import Mathlib

/- Formal verification of the Melbourne cinema scraper (src/scraper.js):
   a shallow embedding of its pure core -- time normalisation, title
   canonicalisation, TMDB lookup caching, session grouping and
   double-feature enrichment -- together with theorems settling the
   specified properties. JS strings are modelled through String.data as
   lists of characters; JS numbers appearing here are naturals (hours,
   minutes, runtimes, ids) or rationals (ratings). Regex-based replaces
   in the source are embedded as hand-written matchers, one per pattern,
   each annotated with the pattern it implements. -/

/-- Decimal digit characters, ASCII 48-57 (JS regex class \d). -/
def isDigitC (c : Char) : Bool := 48 ≤ c.toNat && c.toNat ≤ 57

/-- Whitespace characters matched by JS \s on the inputs in scope
    (space, tab, line feed, vertical tab, form feed, carriage return). -/
def isWsC (c : Char) : Bool :=
  c = ' ' || c = '\t' || c = '\n' || c = '\r' || c = Char.ofNat 11 || c = Char.ofNat 12

/-- ASCII lowercasing of one character (String.prototype.toLowerCase on ASCII data). -/
def lowerCh (c : Char) : Char :=
  if 65 ≤ c.toNat ∧ c.toNat ≤ 90 then Char.ofNat (c.toNat + 32) else c

/-- The digit character of n, for n < 10. -/
def digitCh (n : Nat) : Char := Char.ofNat (48 + n)

/-- Decimal rendering of a natural number (JS template-literal number
    stringification), written with explicit fuel so it reduces in the kernel. -/
def natDigitsGo : Nat → Nat → List Char
  | 0, _ => []
  | fuel + 1, n => if n < 10 then [digitCh n] else natDigitsGo fuel (n / 10) ++ [digitCh (n % 10)]

/-- Decimal rendering of a natural number n (as in a JS template literal). -/
def natDigits (n : Nat) : List Char := natDigitsGo (n + 1) n

/-- mins.toString().padStart(2, \x7b0\x7d): two-digit zero padding. -/
def pad2C (n : Nat) : List Char := if n < 10 then ['0', digitCh n] else natDigits n

/-- parseInt(ds, 10) on a list of digit characters. -/
def digitsVal (ds : List Char) : Nat := ds.foldl (fun a c => 10 * a + (c.toNat - 48)) 0

/-- The canonical lowercase meridiem strings produced by the normaliser. -/
def amC : List Char := ['a', 'm']

def pmC : List Char := ['p', 'm']

/-- Is pat a (character-exact) prefix of the second list? -/
def isPrefixOfC : List Char → List Char → Bool
  | [], _ => true
  | _ :: _, [] => false
  | p :: ps, c :: cs => p = c && isPrefixOfC ps cs

/-- JS String.prototype.includes: pat occurs contiguously in the list. -/
def containsSub (pat : List Char) : List Char → Bool
  | [] => isPrefixOfC pat []
  | c :: cs => isPrefixOfC pat (c :: cs) || containsSub pat cs

/-- The sentinel substring checked by standardiseTime. -/
def seeWebsiteC : List Char := ['s', 'e', 'e', ' ', 'w', 'e', 'b', 's', 'i', 't', 'e']

/-- Case-insensitive recognition of the meridiem group (am|pm)$ of the
    12-hour regexes: the remainder must be exactly two characters; the
    source lowercases the captured group, so the canonical form is returned. -/
def meridiem (l : List Char) : Option (List Char) :=
  match l with
  | [c1, c2] =>
    if lowerCh c2 = 'm' then
      if lowerCh c1 = 'a' then some amC
      else if lowerCh c1 = 'p' then some pmC
      else none
    else none
  | _ => none

/-- Matcher for /^(\d\x7b1,2\x7d):(\d\x7b2\x7d)\s*(am|pm)$/i: hours, minutes and the
    lowercased meridiem. Covers both the first and (identical) third regex
    of standardiseTime. -/
def parse12 (l : List Char) : Option (Nat × Nat × List Char) :=
  let ds := l.takeWhile isDigitC
  let r1 := l.dropWhile isDigitC
  if ds.length = 0 ∨ 2 < ds.length then none
  else
    match r1 with
    | c :: r2 =>
      if c = ':' then
        let ms := r2.takeWhile isDigitC
        let r3 := r2.dropWhile isDigitC
        if ms.length = 2 then
          match meridiem (r3.dropWhile isWsC) with
          | some per => some (digitsVal ds, digitsVal ms, per)
          | none => none
        else none
      else none
    | [] => none

/-- Matcher for /^(\d\x7b1,2\x7d)\s*(am|pm)$/i: hour and lowercased meridiem. -/
def parseNoMin (l : List Char) : Option (Nat × List Char) :=
  let ds := l.takeWhile isDigitC
  let r1 := l.dropWhile isDigitC
  if ds.length = 0 ∨ 2 < ds.length then none
  else
    match meridiem (r1.dropWhile isWsC) with
    | some per => some (digitsVal ds, per)
    | none => none

/-- Matcher for /^(\d\x7b1,2\x7d):(\d\x7b2\x7d)$/: 24-hour format. -/
def parse24 (l : List Char) : Option (Nat × Nat) :=
  let ds := l.takeWhile isDigitC
  let r1 := l.dropWhile isDigitC
  if ds.length = 0 ∨ 2 < ds.length then none
  else
    match r1 with
    | c :: r2 =>
      if c = ':' then
        let ms := r2.takeWhile isDigitC
        let r3 := r2.dropWhile isDigitC
        if ms.length = 2 ∧ r3 = [] then some (digitsVal ds, digitsVal ms) else none
      else none
    | [] => none

/-- standardiseTime on character lists: empty and "see website" inputs pass
    through; then the three time formats are tried in source order (the
    source tries the 12-hour-with-minutes regex twice; the second attempt
    can never fire and is omitted); unmatched input is returned unchanged. -/
def stdTimeChars (l : List Char) : List Char :=
  if l = [] ∨ containsSub seeWebsiteC (l.map lowerCh) = true then l
  else
    match parse12 l with
    | some (h, m, per) => natDigits h ++ ':' :: pad2C m ++ per
    | none =>
      match parseNoMin l with
      | some (h, per) => natDigits h ++ ':' :: '0' :: '0' :: per
      | none =>
        match parse24 l with
        | some (h, m) =>
          let period := if 12 ≤ h then pmC else amC
          let hour12 := if h = 0 then 12 else if 12 < h then h - 12 else h
          natDigits hour12 ++ ':' :: pad2C m ++ period
        | none => l

/-- standardiseTime from src/scraper.js. -/
def standardiseTime (s : String) : String := ⟨stdTimeChars s.data⟩

example : standardiseTime "2:30 PM" = "2:30pm" := by decide
example : standardiseTime "14:05" = "2:05pm" := by decide
example : standardiseTime "9am" = "9:00am" := by decide
example : standardiseTime "see website" = "see website" := by decide
example : standardiseTime "See website" = "See website" := by decide
example : standardiseTime "00:00" = "12:00am" := by decide
example : standardiseTime "12:30" = "12:30pm" := by decide
example : standardiseTime "25:00" = "13:00pm" := by decide
example : standardiseTime "garbage" = "garbage" := by decide

/- ------------------------------------------------------------------ -/
/- Lemmas about the character-level scaffolding                        -/
/- ------------------------------------------------------------------ -/

theorem takeWhile_append_of (p : Char → Bool) (a b : List Char)
    (ha : ∀ c ∈ a, p c = true) (hb : ∀ x l', b = x :: l' → p x = false) :
    (a ++ b).takeWhile p = a ∧ (a ++ b).dropWhile p = b := by
  induction a with
  | nil =>
    simp only [List.nil_append]
    cases b with
    | nil => simp
    | cons x l' =>
      have hx := hb x l' rfl
      simp [List.takeWhile_cons, List.dropWhile_cons, hx]
  | cons c cs ih =>
    have hc := ha c (by simp)
    have ih' := ih (fun d hd => ha d (by simp [hd]))
    simp [List.takeWhile_cons, List.dropWhile_cons, hc, ih'.1, ih'.2]

theorem mem_takeWhileC (p : Char → Bool) (l : List Char) :
    ∀ c ∈ l.takeWhile p, p c = true := by
  induction l with
  | nil => simp
  | cons x xs ih =>
    intro c hc
    rw [List.takeWhile_cons] at hc
    by_cases hx : p x = true
    · rw [if_pos hx] at hc
      rcases List.mem_cons.mp hc with h | h
      · rwa [h]
      · exact ih c h
    · rw [if_neg hx] at hc
      exact absurd hc (List.not_mem_nil c)

theorem isPrefixOfC_s_false (rest l : List Char) (h : ∀ c ∈ l, c ≠ 's') :
    isPrefixOfC ('s' :: rest) l = false := by
  cases l with
  | nil => rfl
  | cons c cs =>
    have hc : ¬('s' = c) := fun h' => h c (by simp) h'.symm
    simp [isPrefixOfC, hc]

theorem containsSub_seeWebsite_false (l : List Char) (h : ∀ c ∈ l, c ≠ 's') :
    containsSub seeWebsiteC l = false := by
  induction l with
  | nil => rfl
  | cons c cs ih =>
    have h1 : isPrefixOfC seeWebsiteC (c :: cs) = false :=
      isPrefixOfC_s_false _ _ h
    have h2 := ih (fun d hd => h d (by simp [hd]))
    simp [containsSub, h1, h2]

theorem lowerCh_of_digit (c : Char) (h : isDigitC c = true) : lowerCh c = c := by
  have hnum : 48 ≤ c.toNat ∧ c.toNat ≤ 57 := by
    simpa [isDigitC] using h
  unfold lowerCh
  rw [if_neg]
  intro hcontra
  omega

theorem charOK_of_digit (c : Char) (h : isDigitC c = true) : lowerCh c ≠ 's' := by
  rw [lowerCh_of_digit c h]
  intro hc
  subst hc
  simp [isDigitC] at h

theorem charOK_of_ws (c : Char) (h : isWsC c = true) : lowerCh c ≠ 's' := by
  simp only [isWsC, Bool.or_eq_true, decide_eq_true_eq] at h
  rcases h with ((((h | h) | h) | h) | h) | h <;> subst h <;> decide

theorem charOK_colon : lowerCh ':' ≠ 's' := by decide

/-- The shape extracted from a successful meridiem match: the remainder is
    exactly two benign characters and the result is a canonical meridiem. -/
theorem meridiem_shape (l : List Char) (per : List Char)
    (h : meridiem l = some per) :
    (∃ c1 c2, l = [c1, c2] ∧ (lowerCh c1 = 'a' ∨ lowerCh c1 = 'p') ∧ lowerCh c2 = 'm') ∧
      (per = amC ∨ per = pmC) := by
  unfold meridiem at h
  split at h
  next c1 c2 =>
    split at h
    next h2 =>
      split at h
      next h1 =>
        exact ⟨⟨c1, c2, rfl, Or.inl h1, h2⟩, Or.inl (Option.some.inj h).symm⟩
      next h1 =>
        split at h
        next h1p =>
          exact ⟨⟨c1, c2, rfl, Or.inr h1p, h2⟩, Or.inr (Option.some.inj h).symm⟩
        next => simp at h
    next => simp at h
  next => simp at h

theorem charOK_of_meridiem_fst (c : Char) (h : lowerCh c = 'a' ∨ lowerCh c = 'p') :
    lowerCh c ≠ 's' := by
  rcases h with h | h <;> rw [h] <;> decide

theorem charOK_of_meridiem_snd (c : Char) (h : lowerCh c = 'm') : lowerCh c ≠ 's' := by
  rw [h]; decide

theorem digitsVal_le_99 (ds : List Char) (hd : ∀ c ∈ ds, isDigitC c = true)
    (hl : ds.length ≤ 2) : digitsVal ds ≤ 99 := by
  match ds, hl with
  | [], _ => simp [digitsVal]
  | [a], _ =>
    have ha : 48 ≤ a.toNat ∧ a.toNat ≤ 57 := by
      simpa [isDigitC] using hd a (by simp)
    simp only [digitsVal, List.foldl]
    omega
  | [a, b], _ =>
    have ha : 48 ≤ a.toNat ∧ a.toNat ≤ 57 := by
      simpa [isDigitC] using hd a (by simp)
    have hb : 48 ≤ b.toNat ∧ b.toNat ≤ 57 := by
      simpa [isDigitC] using hd b (by simp)
    simp only [digitsVal, List.foldl]
    omega

/-- All facts about natDigits needed below, for the bounded values the
    normaliser can render. -/
theorem natDigits_facts : ∀ n < 100, (∀ c ∈ natDigits n, isDigitC c = true) ∧
    1 ≤ (natDigits n).length ∧ (natDigits n).length ≤ 2 ∧
    digitsVal (natDigits n) = n := by decide

theorem pad2C_facts : ∀ n < 100, (∀ c ∈ pad2C n, isDigitC c = true) ∧
    (pad2C n).length = 2 ∧ digitsVal (pad2C n) = n := by decide

theorem parse12_shape (l : List Char) (hh mm : Nat) (per : List Char)
    (hp : parse12 l = some (hh, mm, per)) :
    hh ≤ 99 ∧ mm ≤ 99 ∧ (per = amC ∨ per = pmC) ∧ l ≠ [] ∧
      containsSub seeWebsiteC (l.map lowerCh) = false := by
  simp only [parse12] at hp
  split at hp
  next => simp at hp
  next hlen =>
    split at hp
    next c r2 hr1 =>
      split at hp
      next hc =>
        split at hp
        next hms =>
          split at hp
          next per' hmer =>
            simp only [Option.some.injEq, Prod.mk.injEq] at hp
            obtain ⟨hhh, hmm, hper⟩ := hp
            obtain ⟨⟨c1, c2, hr4, hc1, hc2⟩, hperC⟩ := meridiem_shape _ _ hmer
            push_neg at hlen
            refine ⟨?_, ?_, ?_, ?_, ?_⟩
            · rw [← hhh]; exact digitsVal_le_99 _ (mem_takeWhileC _ _) (by omega)
            · rw [← hmm]; exact digitsVal_le_99 _ (mem_takeWhileC _ _) (by rw [hms])
            · rw [← hper]; exact hperC
            · intro hnil; subst hnil; simp at hlen
            · apply containsSub_seeWebsite_false
              intro d hd
              obtain ⟨e, he, rfl⟩ := List.mem_map.mp hd
              rw [← List.takeWhile_append_dropWhile (p := isDigitC) (l := l)] at he
              rw [hr1] at he
              rcases List.mem_append.mp he with h1 | h2
              · exact charOK_of_digit _ (mem_takeWhileC _ _ _ h1)
              · rcases List.mem_cons.mp h2 with rfl | h3
                · rw [hc]; exact charOK_colon
                · rw [← List.takeWhile_append_dropWhile (p := isDigitC) (l := r2)] at h3
                  rcases List.mem_append.mp h3 with h4 | h5
                  · exact charOK_of_digit _ (mem_takeWhileC _ _ _ h4)
                  · rw [← List.takeWhile_append_dropWhile (p := isWsC) (l := r2.dropWhile isDigitC), hr4] at h5
                    rcases List.mem_append.mp h5 with h6 | h7
                    · exact charOK_of_ws _ (mem_takeWhileC _ _ _ h6)
                    · rcases List.mem_cons.mp h7 with rfl | h8
                      · exact charOK_of_meridiem_fst _ hc1
                      · rcases List.mem_cons.mp h8 with rfl | h9
                        · exact charOK_of_meridiem_snd _ hc2
                        · exact absurd h9 (List.not_mem_nil _)
          next => simp at hp
        next => simp at hp
      next => simp at hp
    next hr1 => simp at hp

theorem parseNoMin_shape (l : List Char) (hh : Nat) (per : List Char)
    (hp : parseNoMin l = some (hh, per)) :
    hh ≤ 99 ∧ (per = amC ∨ per = pmC) ∧ l ≠ [] ∧
      containsSub seeWebsiteC (l.map lowerCh) = false := by
  simp only [parseNoMin] at hp
  split at hp
  next => simp at hp
  next hlen =>
    split at hp
    next per' hmer =>
      simp only [Option.some.injEq, Prod.mk.injEq] at hp
      obtain ⟨hhh, hper⟩ := hp
      obtain ⟨⟨c1, c2, hr4, hc1, hc2⟩, hperC⟩ := meridiem_shape _ _ hmer
      push_neg at hlen
      refine ⟨?_, ?_, ?_, ?_⟩
      · rw [← hhh]; exact digitsVal_le_99 _ (mem_takeWhileC _ _) (by omega)
      · rw [← hper]; exact hperC
      · intro hnil; subst hnil; simp at hlen
      · apply containsSub_seeWebsite_false
        intro d hd
        obtain ⟨e, he, rfl⟩ := List.mem_map.mp hd
        rw [← List.takeWhile_append_dropWhile (p := isDigitC) (l := l)] at he
        rcases List.mem_append.mp he with h1 | h2
        · exact charOK_of_digit _ (mem_takeWhileC _ _ _ h1)
        · rw [← List.takeWhile_append_dropWhile (p := isWsC) (l := l.dropWhile isDigitC), hr4] at h2
          rcases List.mem_append.mp h2 with h3 | h4
          · exact charOK_of_ws _ (mem_takeWhileC _ _ _ h3)
          · rcases List.mem_cons.mp h4 with rfl | h5
            · exact charOK_of_meridiem_fst _ hc1
            · rcases List.mem_cons.mp h5 with rfl | h6
              · exact charOK_of_meridiem_snd _ hc2
              · exact absurd h6 (List.not_mem_nil _)
    next => simp at hp

theorem parse24_shape (l : List Char) (hh mm : Nat)
    (hp : parse24 l = some (hh, mm)) :
    hh ≤ 99 ∧ mm ≤ 99 ∧ l ≠ [] ∧
      containsSub seeWebsiteC (l.map lowerCh) = false := by
  simp only [parse24] at hp
  split at hp
  next => simp at hp
  next hlen =>
    split at hp
    next c r2 hr1 =>
      split at hp
      next hc =>
        split at hp
        next hms =>
          simp only [Option.some.injEq, Prod.mk.injEq] at hp
          obtain ⟨hhh, hmm⟩ := hp
          push_neg at hlen
          refine ⟨?_, ?_, ?_, ?_⟩
          · rw [← hhh]; exact digitsVal_le_99 _ (mem_takeWhileC _ _) (by omega)
          · rw [← hmm]; exact digitsVal_le_99 _ (mem_takeWhileC _ _) (by rw [hms.1])
          · intro hnil; subst hnil; simp at hlen
          · apply containsSub_seeWebsite_false
            intro d hd
            obtain ⟨e, he, rfl⟩ := List.mem_map.mp hd
            rw [← List.takeWhile_append_dropWhile (p := isDigitC) (l := l)] at he
            rw [hr1] at he
            rcases List.mem_append.mp he with h1 | h2
            · exact charOK_of_digit _ (mem_takeWhileC _ _ _ h1)
            · rcases List.mem_cons.mp h2 with rfl | h3
              · rw [hc]; exact charOK_colon
              · rw [← List.takeWhile_append_dropWhile (p := isDigitC) (l := r2)] at h3
                rcases List.mem_append.mp h3 with h4 | h5
                · exact charOK_of_digit _ (mem_takeWhileC _ _ _ h4)
                · rw [hms.2] at h5
                  exact absurd h5 (List.not_mem_nil _)
        next => simp at hp
      next => simp at hp
    next => simp at hp

theorem stdTimeChars_eq_of_parse12 (l : List Char) (hh mm : Nat) (per : List Char)
    (hp : parse12 l = some (hh, mm, per)) :
    stdTimeChars l = natDigits hh ++ ':' :: pad2C mm ++ per := by
  obtain ⟨_, _, _, hnil, hsee⟩ := parse12_shape l hh mm per hp
  unfold stdTimeChars
  rw [if_neg (by simp [hnil, hsee]), hp]

theorem stdTimeChars_eq_of_parseNoMin (l : List Char) (hh : Nat) (per : List Char)
    (hp12 : parse12 l = none) (hp : parseNoMin l = some (hh, per)) :
    stdTimeChars l = natDigits hh ++ ':' :: '0' :: '0' :: per := by
  obtain ⟨_, _, hnil, hsee⟩ := parseNoMin_shape l hh per hp
  unfold stdTimeChars
  rw [if_neg (by simp [hnil, hsee]), hp12, hp]

theorem stdTimeChars_eq_of_parse24 (l : List Char) (hh mm : Nat)
    (hp12 : parse12 l = none) (hpnm : parseNoMin l = none)
    (hp : parse24 l = some (hh, mm)) :
    stdTimeChars l =
      natDigits (if hh = 0 then 12 else if 12 < hh then hh - 12 else hh) ++
        ':' :: pad2C mm ++ (if 12 ≤ hh then pmC else amC) := by
  obtain ⟨_, _, hnil, hsee⟩ := parse24_shape l hh mm hp
  unfold stdTimeChars
  rw [if_neg (by simp [hnil, hsee]), hp12, hpnm, hp]

theorem parse12_none_of_noMin (l : List Char) (hh : Nat) (per : List Char)
    (hp : parseNoMin l = some (hh, per)) : parse12 l = none := by
  simp only [parseNoMin] at hp
  split at hp
  next => simp at hp
  next hlen =>
    split at hp
    next per' hmer =>
      simp only [parse12]
      rw [if_neg hlen]
      cases hr1 : l.dropWhile isDigitC with
      | nil => rfl
      | cons c r2 =>
        by_cases hc : c = ':'
        · exfalso
          rw [hr1] at hmer
          subst hc
          rw [show List.dropWhile isWsC (':' :: r2) = ':' :: r2 by
            rw [List.dropWhile_cons, if_neg (by decide)]] at hmer
          obtain ⟨⟨c1, c2, hr4, hc1, _⟩, _⟩ := meridiem_shape _ _ hmer
          have hcc : c1 = ':' := by
            have := congrArg (fun t => t.headI) hr4
            simpa using this.symm
          rw [hcc] at hc1
          rcases hc1 with h | h <;> revert h <;> decide
        · simp [hc]
    next => simp at hp

theorem parse12_none_of_24 (l : List Char) (hh mm : Nat)
    (hp : parse24 l = some (hh, mm)) : parse12 l = none := by
  simp only [parse24] at hp
  split at hp
  next => simp at hp
  next hlen =>
    split at hp
    next c r2 hr1 =>
      split at hp
      next hc =>
        split at hp
        next hms =>
          simp only [parse12]
          rw [if_neg hlen]
          split
          next c' r2' heq =>
            rw [hr1] at heq
            injection heq with hec her
            subst hec
            subst her
            rw [if_pos hc, if_pos hms.1, hms.2]
            rfl
          next heq => rw [hr1] at heq
        next => simp at hp
      next => simp at hp
    next => simp at hp

theorem parseNoMin_none_of_24 (l : List Char) (hh mm : Nat)
    (hp : parse24 l = some (hh, mm)) : parseNoMin l = none := by
  simp only [parse24] at hp
  split at hp
  next => simp at hp
  next hlen =>
    split at hp
    next c r2 hr1 =>
      split at hp
      next hc =>
        split at hp
        next hms =>
          simp only [parseNoMin]
          rw [if_neg hlen, hr1]
          subst hc
          rw [show List.dropWhile isWsC (':' :: r2) = ':' :: r2 by
            rw [List.dropWhile_cons, if_neg (by decide)]]
          cases hme : meridiem (':' :: r2) with
          | none => rfl
          | some p' =>
            exfalso
            obtain ⟨⟨c1, c2, hr4, hc1, _⟩, _⟩ := meridiem_shape _ _ hme
            have hcc : c1 = ':' := by
              have := congrArg (fun t => t.headI) hr4
              simpa using this.symm
            rw [hcc] at hc1
            rcases hc1 with h | h <;> revert h <;> decide
        next => simp at hp
      next => simp at hp
    next => simp at hp

theorem takeWhile_all (p : Char → Bool) (l : List Char) (h : ∀ c ∈ l, p c = true) :
    l.takeWhile p = l ∧ l.dropWhile p = [] := by
  induction l with
  | nil => simp
  | cons c cs ih =>
    have hc := h c (by simp)
    have ih' := ih (fun d hd => h d (by simp [hd]))
    simp [List.takeWhile_cons, List.dropWhile_cons, hc, ih'.1, ih'.2]

theorem parse12_fmt (hh mm : Nat) (per : List Char) (h99 : hh ≤ 99) (m99 : mm ≤ 99)
    (hper : per = amC ∨ per = pmC) :
    parse12 (natDigits hh ++ ':' :: pad2C mm ++ per) = some (hh, mm, per) := by
  obtain ⟨hdig, hlen1, hlen2, hval⟩ := natDigits_facts hh (by omega)
  obtain ⟨hdig2, hlenp, hvalp⟩ := pad2C_facts mm (by omega)
  have houter := takeWhile_append_of isDigitC (natDigits hh) (':' :: (pad2C mm ++ per)) hdig
    (by intro x l' hx; injection hx with h1 _; subst h1; decide)
  have hinner := takeWhile_append_of isDigitC (pad2C mm) per hdig2
    (by rcases hper with h | h <;> subst h <;>
      (intro x l' hx; injection hx with h1 _; subst h1; decide))
  rw [List.append_assoc, List.cons_append]
  simp only [parse12]
  rw [houter.1, houter.2]
  rw [if_neg (show ¬((natDigits hh).length = 0 ∨ 2 < (natDigits hh).length) by omega)]
  split
  next c' r2' heq =>
    injection heq with hec her
    subst hec
    subst her
    rw [if_pos rfl]
    rw [hinner.1, hinner.2]
    rw [if_pos hlenp]
    have hmer : meridiem (per.dropWhile isWsC) = some per := by
      rcases hper with h | h <;> subst h <;> decide
    rw [hmer]
    show some (digitsVal (natDigits hh), digitsVal (pad2C mm), per) = some (hh, mm, per)
    rw [hval, hvalp]
  next heq => exact absurd heq (by simp)

theorem fmt_fixed (hh mm : Nat) (per : List Char) (h99 : hh ≤ 99) (m99 : mm ≤ 99)
    (hper : per = amC ∨ per = pmC) :
    stdTimeChars (natDigits hh ++ ':' :: pad2C mm ++ per) =
      natDigits hh ++ ':' :: pad2C mm ++ per :=
  stdTimeChars_eq_of_parse12 _ hh mm per (parse12_fmt hh mm per h99 m99 hper)

theorem stdTimeChars_idem (l : List Char)
    (h : (parse12 l).isSome = true ∨ (parseNoMin l).isSome = true ∨
      (parse24 l).isSome = true ∨ containsSub seeWebsiteC (l.map lowerCh) = true) :
    stdTimeChars (stdTimeChars l) = stdTimeChars l := by
  by_cases hsent : l = [] ∨ containsSub seeWebsiteC (l.map lowerCh) = true
  · have hl : stdTimeChars l = l := by unfold stdTimeChars; rw [if_pos hsent]
    rw [hl, hl]
  · cases hp12 : parse12 l with
    | some v =>
      obtain ⟨hh, mm, per⟩ := v
      obtain ⟨h99, m99, hperC, -, -⟩ := parse12_shape l hh mm per hp12
      rw [stdTimeChars_eq_of_parse12 l hh mm per hp12]
      exact fmt_fixed hh mm per h99 m99 hperC
    | none =>
      cases hpnm : parseNoMin l with
      | some v =>
        obtain ⟨hh, per⟩ := v
        obtain ⟨h99, hperC, -, -⟩ := parseNoMin_shape l hh per hpnm
        rw [stdTimeChars_eq_of_parseNoMin l hh per hp12 hpnm]
        have hrw : natDigits hh ++ ':' :: '0' :: '0' :: per =
            natDigits hh ++ ':' :: pad2C 0 ++ per := by
          rw [show pad2C 0 = ['0', '0'] from rfl]
          simp
        rw [hrw]
        exact fmt_fixed hh 0 per h99 (by omega) hperC
      | none =>
        cases hp24 : parse24 l with
        | some v =>
          obtain ⟨hh, mm⟩ := v
          obtain ⟨h99, m99, -, -⟩ := parse24_shape l hh mm hp24
          rw [stdTimeChars_eq_of_parse24 l hh mm hp12 hpnm hp24]
          apply fmt_fixed
          · split
            next => omega
            next => split <;> omega
          · exact m99
          · by_cases h12 : 12 ≤ hh
            · rw [if_pos h12]; exact Or.inr rfl
            · rw [if_neg h12]; exact Or.inl rfl
        | none =>
          rcases h with h | h | h | h
          · rw [hp12] at h; simp at h
          · rw [hpnm] at h; simp at h
          · rw [hp24] at h; simp at h
          · exact absurd (Or.inr h) hsent

theorem parse_fmt24 (hh mm : Nat) (h99 : hh ≤ 99) (m99 : mm ≤ 99) :
    parse24 (pad2C hh ++ ':' :: pad2C mm) = some (hh, mm) ∧
      parse12 (pad2C hh ++ ':' :: pad2C mm) = none ∧
      parseNoMin (pad2C hh ++ ':' :: pad2C mm) = none := by
  obtain ⟨hdig, hlenp, hval⟩ := pad2C_facts hh (by omega)
  obtain ⟨hdig2, hlenp2, hval2⟩ := pad2C_facts mm (by omega)
  have houter := takeWhile_append_of isDigitC (pad2C hh) (':' :: pad2C mm) hdig
    (by intro x l' hx; injection hx with h1 _; subst h1; decide)
  have hinner := takeWhile_all isDigitC (pad2C mm) hdig2
  have hguard : ¬((pad2C hh).length = 0 ∨ 2 < (pad2C hh).length) := by omega
  obtain ⟨d1, d2, hd12⟩ := List.length_eq_two.mp hlenp2
  refine ⟨?_, ?_, ?_⟩
  · simp only [parse24]
    rw [houter.1, houter.2, if_neg hguard]
    split
    next c' r2' heq =>
      injection heq with hec her
      subst hec
      subst her
      rw [if_pos rfl, if_pos ⟨by rw [hinner.1, hlenp2], hinner.2⟩]
      rw [hinner.1, hval, hval2]
    next heq => exact absurd heq (by simp)
  · simp only [parse12]
    rw [houter.1, houter.2, if_neg hguard]
    split
    next c' r2' heq =>
      injection heq with hec her
      subst hec
      subst her
      rw [if_pos rfl, if_pos (by rw [hinner.1, hlenp2]), hinner.2]
      rfl
    next heq => exact absurd heq (by simp)
  · simp only [parseNoMin]
    rw [houter.1, houter.2, if_neg hguard]
    rw [show List.dropWhile isWsC (':' :: pad2C mm) = ':' :: pad2C mm by
      rw [List.dropWhile_cons, if_neg (by decide)]]
    rw [hd12]
    rfl

/-- C7: the time normaliser meets the four example equalities of the
    specification, and on every 24-hour input HH:MM (zero-padded, hour at
    most 23, minutes at most 59) it converts hour 0 to 12am, hour 12 to
    12pm and hour greater than 12 to hour-12 pm, rendering minutes as two
    digits and the hour without zero padding. -/
theorem spec_C7 :
    (standardiseTime "2:30 PM" = "2:30pm" ∧ standardiseTime "14:05" = "2:05pm" ∧
      standardiseTime "9am" = "9:00am" ∧ standardiseTime "see website" = "see website") ∧
    ∀ hh mm : Nat, hh ≤ 23 → mm ≤ 59 →
      standardiseTime ⟨pad2C hh ++ ':' :: pad2C mm⟩ =
        ⟨natDigits (if hh = 0 then 12 else if 12 < hh then hh - 12 else hh) ++
          ':' :: pad2C mm ++ (if 12 ≤ hh then pmC else amC)⟩ := by
  refine ⟨⟨by decide, by decide, by decide, by decide⟩, ?_⟩
  intro hh mm h23 m59
  obtain ⟨h24, h12, hnm⟩ := parse_fmt24 hh mm (by omega) (by omega)
  show (⟨stdTimeChars (pad2C hh ++ ':' :: pad2C mm)⟩ : String) = _
  rw [stdTimeChars_eq_of_parse24 _ hh mm h12 hnm h24]

/-- The supported raw time formats named by the specification: 12-hour with
    minutes (optional space before the meridiem), 12-hour without minutes,
    24-hour HH:MM, and the "see website" sentinel. -/
def SupportedFormat (x : String) : Prop :=
  (parse12 x.data).isSome = true ∨ (parseNoMin x.data).isSome = true ∨
    (parse24 x.data).isSome = true ∨
    containsSub seeWebsiteC (x.data.map lowerCh) = true

instance (x : String) : Decidable (SupportedFormat x) := by
  unfold SupportedFormat
  infer_instance

/-- C8: on every input in a supported raw time format the normaliser is
    idempotent. -/
theorem spec_C8 (x : String) (h : SupportedFormat x) :
    standardiseTime (standardiseTime x) = standardiseTime x := by
  show (⟨stdTimeChars (stdTimeChars x.data)⟩ : String) = ⟨stdTimeChars x.data⟩
  exact congrArg String.mk (stdTimeChars_idem x.data h)

theorem spec_C8_witness : SupportedFormat "2:30 PM" ∧
    standardiseTime (standardiseTime "2:30 PM") = standardiseTime "2:30 PM" :=
  ⟨by decide, spec_C8 "2:30 PM" (by decide)⟩

theorem spec_C7_witness :
    standardiseTime ⟨pad2C 14 ++ ':' :: pad2C 5⟩ =
      ⟨natDigits (if 14 = 0 then 12 else if 12 < 14 then 14 - 12 else 14) ++
        ':' :: pad2C 5 ++ (if 12 ≤ 14 then pmC else amC)⟩ :=
  spec_C7.2 14 5 (by decide) (by decide)

/- ------------------------------------------------------------------ -/
/- Title canonicalisation (the cleanTitle pipeline of fetchTMDB)       -/
/- ------------------------------------------------------------------ -/

/-- Case-insensitive prefix stripping: if pat is a prefix of l up to ASCII
    case, return the remainder. -/
def stripCI : List Char → List Char → Option (List Char)
  | [], l => some l
  | _ :: _, [] => none
  | p :: ps, c :: cs => if lowerCh c = lowerCh p then stripCI ps cs else none

def hasPrefixCI (pat l : List Char) : Bool := (stripCI pat l).isSome

/-- JS word characters \w = [A-Za-z0-9_]. -/
def isWordC (c : Char) : Bool :=
  isDigitC c || (97 ≤ c.toNat && c.toNat ≤ 122) || (65 ≤ c.toNat && c.toNat ≤ 90) || c = '_'

/-- The character class [-–—]: ASCII hyphen, en dash, em dash. -/
def isDashC (c : Char) : Bool := c = '-' || c = '–' || c = '—'

/-- The trailing .*$ of several patterns: the dot cannot cross a JS line
    terminator, so the swallowed remainder must be newline-free. -/
def noNewline (l : List Char) : Bool := l.all (fun c => !(c = '\n' || c = '\r'))

/-- The format-tag alternatives of step 1, in source order. -/
def fmtTags : List (List Char) :=
  ["3D".data, "IMAX".data, "4K".data, "2K".data, "2D".data,
   "HFR".data, "HDR".data, "Dolby".data, "Atmos".data]

/-- Try the format tags at the head of l (the word boundary before the tag is
    the caller's responsibility); a hit also needs a word boundary after the
    tag. Returns the remainder after the tag. -/
def matchTag (l : List Char) : Option (List Char) :=
  fmtTags.findSome? fun tag =>
    match stripCI tag l with
    | some rest =>
      match rest with
      | [] => some []
      | c :: cs => if isWordC c then none else some (c :: cs)
    | none => none

/-- Step 1: .replace of the global word-bounded tag alternation
    /\b(3D|IMAX|4K|2K|2D|HFR|HDR|Dolby|Atmos)\b/gi with the empty string.
    prevW records whether the previous character is a word character; fuel is
    the remaining length, consumed one unit per character position. -/
def step1Go : Nat → Bool → List Char → List Char
  | 0, _, l => l
  | _ + 1, _, [] => []
  | fuel + 1, prevW, c :: cs =>
    if prevW = false then
      match matchTag (c :: cs) with
      | some rest => step1Go fuel true rest
      | none => c :: step1Go fuel (isWordC c) cs
    else c :: step1Go fuel (isWordC c) cs

def step1 (l : List Char) : List Char := step1Go l.length false l

/-- The character class [\w\s,'-] of the language-marker pattern. -/
def isClsC (c : Char) : Bool :=
  isWordC c || isWsC c || c = ',' || c = Char.ofNat 39 || c = '-'

/-- Language keywords of step 2. The optional suffixes of sub(titled|titles|s)?
    and dub(bed)? do not affect match existence or extent, so the stems
    suffice. -/
def langKeys : List (List Char) :=
  ["sub".data, "dub".data, "eng".data, "hindi".data, "telugu".data, "tamil".data,
   "malayalam".data, "kannada".data, "korean".data, "japanese".data, "mandarin".data,
   "cantonese".data, "spanish".data, "french".data, "german".data, "italian".data]

/-- Does some language keyword occur (case-insensitively) in l? -/
def hasLangKey : List Char → Bool
  | [] => false
  | c :: cs => langKeys.any (fun k => hasPrefixCI k (c :: cs)) || hasLangKey cs

/-- Step 2: the global replace of
    /\([\w\s,'-]*(sub...|dub...|<language>)[\w\s,'-]*\)/gi with the empty
    string. A match starting at a parenthesis spans the maximal run of class
    characters up to the immediately following close parenthesis, and exists
    exactly when some keyword occurs inside the run. -/
def step2Go : Nat → List Char → List Char
  | 0, l => l
  | _ + 1, [] => []
  | fuel + 1, c :: cs =>
    if c = '(' then
      let inside := cs.takeWhile isClsC
      let rest := cs.dropWhile isClsC
      match rest with
      | ')' :: rest2 =>
        if hasLangKey inside then step2Go fuel rest2 else c :: step2Go fuel cs
      | _ => c :: step2Go fuel cs
    else c :: step2Go fuel cs

def step2 (l : List Char) : List Char := step2Go l.length l

/-- First-match replace with the empty string of a pattern anchored to the end
    of the string (all the remaining title patterns end in $, or in .*$ whose
    extent also reaches the end): scan left to right and truncate at the first
    position where the pattern matches. -/
def scanDelete (matchAt : List Char → Bool) : List Char → List Char
  | [] => []
  | c :: cs => if matchAt (c :: cs) then [] else c :: scanDelete matchAt cs

def ordKeys : List (List Char) := ["st".data, "nd".data, "rd".data, "th".data]

/-- \s*(st|nd|rd|th)?\s*anniversary.*$ after the digits of step 3: tried with
    the ordinal consumed, then without it (the only backtracking the pattern
    can need). -/
def annivTail (l : List Char) : Bool :=
  let l1 := l.dropWhile isWsC
  let withOrd :=
    match ordKeys.findSome? (fun k => stripCI k l1) with
    | some l2 =>
      match stripCI "anniversary".data (l2.dropWhile isWsC) with
      | some r => noNewline r
      | none => false
    | none => false
  let without :=
    match stripCI "anniversary".data l1 with
    | some r => noNewline r
    | none => false
  withOrd || without

/-- Step 3 matcher: /[-–—]\s*\d+\s*(st|nd|rd|th)?\s*anniversary.*$/i. -/
def step3At (l : List Char) : Bool :=
  match l with
  | c :: cs =>
    isDashC c &&
      (let l1 := cs.dropWhile isWsC
       let ds := l1.takeWhile isDigitC
       let l2 := l1.dropWhile isDigitC
       !ds.isEmpty && annivTail l2)
  | [] => false

/-- The keyword alternation (restoration|remaster(ed)?|re-?release) of step 4:
    for match existence and extent a stem hit suffices (the optional "ed" only
    lengthens text already swallowed by .*). -/
def restoKey (l : List Char) : Option (List Char) :=
  match stripCI "restoration".data l with
  | some r => some r
  | none =>
    match stripCI "remaster".data l with
    | some r => some r
    | none =>
      match stripCI "rerelease".data l with
      | some r => some r
      | none => stripCI "re-release".data l

/-- Step 4 matcher:
    /[-–—]?\s*(\d+K\s*)?(digital\s*)?(restoration|remaster(ed)?|re-?release).*$/i.
    Each optional group is committed when its first character is present,
    because no later alternative can consume that character. -/
def step4At (l : List Char) : Bool :=
  let l0 := match l with
    | c :: cs => if isDashC c then cs else l
    | [] => l
  let l1 := l0.dropWhile isWsC
  let l2 :=
    if !(l1.takeWhile isDigitC).isEmpty then
      match l1.dropWhile isDigitC with
      | c :: cs => if lowerCh c = 'k' then cs.dropWhile isWsC else l1
      | [] => l1
    else l1
  let l3 :=
    match stripCI "digital".data l2 with
    | some r => r.dropWhile isWsC
    | none => l2
  match restoKey l3 with
  | some r => noNewline r
  | none => false

def specialKeys : List (List Char) :=
  ["preview".data, "special".data, "encore".data, "screening".data,
   "event".data, "limited".data]

/-- Step 5 matcher: /[-–—]\s*(preview|special|encore|screening|event|limited).*$/i. -/
def step5At (l : List Char) : Bool :=
  match l with
  | c :: cs =>
    isDashC c &&
      (match specialKeys.findSome? (fun k => stripCI k (cs.dropWhile isWsC)) with
       | some r => noNewline r
       | none => false)
  | [] => false

def liveKeys : List (List Char) :=
  ["NT Live".data, "Met Opera".data, "National Theatre Live".data]

/-- Step 6 matcher: /\s*[-:]\s*(NT Live|Met Opera|National Theatre Live).*$/i.
    Only the ASCII hyphen and the colon delimit here. -/
def step6At (l : List Char) : Bool :=
  match l.dropWhile isWsC with
  | c :: cs =>
    (c = '-' || c = ':') &&
      (match liveKeys.findSome? (fun k => stripCI k (cs.dropWhile isWsC)) with
       | some r => noNewline r
       | none => false)
  | [] => false

/-- Step 7 matcher: /\s*[-–—]\s*(RETRO CLASSIX|CLASSIC|RETRO)$/i; each
    alternative must reach the end of the string. -/
def step7At (l : List Char) : Bool :=
  match l.dropWhile isWsC with
  | c :: cs =>
    isDashC c &&
      (let l2 := cs.dropWhile isWsC
       (match stripCI "RETRO CLASSIX".data l2 with | some [] => true | _ => false) ||
       (match stripCI "CLASSIC".data l2 with | some [] => true | _ => false) ||
       (match stripCI "RETRO".data l2 with | some [] => true | _ => false))
  | [] => false

/-- Step 8 matcher: /\s*\(\d\x7b4\x7d(\s+film)?\)\s*$/i. -/
def step8At (l : List Char) : Bool :=
  match l.dropWhile isWsC with
  | c :: cs =>
    c = '(' &&
      (let ds := cs.takeWhile isDigitC
       let r := cs.dropWhile isDigitC
       ds.length = 4 &&
         (let r2 : Option (List Char) :=
            match r with
            | x :: xs =>
              if isWsC x then stripCI "film".data ((x :: xs).dropWhile isWsC)
              else some r
            | [] => some r
          match r2 with
          | some (')' :: tail) => tail.all isWsC
          | _ => false))
  | [] => false

/-- The lazy interior of step 9: is there a close bracket, not beyond a line
    terminator, after which only whitespace remains? -/
def bracketTail : List Char → Bool
  | [] => false
  | c :: cs =>
    if c = ']' && cs.all isWsC then true
    else if c = '\n' || c = '\r' then false
    else bracketTail cs

/-- Step 9 matcher: /\s*\[.*?\]\s*$/i. -/
def step9At (l : List Char) : Bool :=
  match l.dropWhile isWsC with
  | c :: cs => c = '[' && bracketTail cs
  | [] => false

/-- Step 10 matcher: /,\s*The$/i. -/
def step10At (l : List Char) : Bool :=
  match l with
  | c :: cs =>
    c = ',' &&
      (match stripCI "The".data (cs.dropWhile isWsC) with
       | some [] => true
       | _ => false)
  | [] => false

/-- Step 11: .replace(/\s+/g, <space>): every maximal whitespace run becomes
    one space. -/
def step11Go : Nat → List Char → List Char
  | 0, l => l
  | _ + 1, [] => []
  | fuel + 1, c :: cs =>
    if isWsC c then ' ' :: step11Go fuel (cs.dropWhile isWsC)
    else c :: step11Go fuel cs

def step11 (l : List Char) : List Char := step11Go l.length l

/-- Step 12 matcher: /[-–—:]\s*$/g (one dash or colon whose tail is all
    whitespace; the match always reaches the end of the string). -/
def step12At (l : List Char) : Bool :=
  match l with
  | c :: cs => (isDashC c || c = ':') && cs.all isWsC
  | [] => false

/-- String.prototype.trim. -/
def trimWs (l : List Char) : List Char :=
  ((l.dropWhile isWsC).reverse.dropWhile isWsC).reverse

/-- Does /,\s*The$/i match somewhere in l (the originalTitle test of
    fetchTMDB)? -/
def hasCommaThe : List Char → Bool
  | [] => false
  | c :: cs => step10At (c :: cs) || hasCommaThe cs

/-- The cleanTitle pipeline of fetchTMDB: the twelve source replaces in
    order, then trim. -/
def canonChars (l : List Char) : List Char :=
  let s1 := step1 l
  let s2 := step2 s1
  let s3 := scanDelete step3At s2
  let s4 := scanDelete step4At s3
  let s5 := scanDelete step5At s4
  let s6 := scanDelete step6At s5
  let s7 := scanDelete step7At s6
  let s8 := scanDelete step8At s7
  let s9 := scanDelete step9At s8
  let s10 := scanDelete step10At s9
  let s11 := step11 s10
  let s12 := scanDelete step12At s11
  trimWs s12

/-- Title canonicalisation as performed by fetchTMDB: the cleaning pipeline,
    then "The " re-prepended when the original title ends in ", The". -/
def canonicalize (title : String) : String :=
  if hasCommaThe title.data then ⟨"The ".data ++ canonChars title.data⟩
  else ⟨canonChars title.data⟩

example : canonicalize "Housemaid, The" = "The Housemaid" := by decide
example : canonicalize "Jaws 3D - 50th Anniversary Restoration" = "Jaws" := by decide
example : canonicalize "Jaws" = "Jaws" := by decide
example : canonicalize "Jaws 3D" = "Jaws" := by decide
example : canonicalize "Film A" = "Film A" := by decide

/-- C9: the title canonicalisation pipeline used to build the metadata-lookup
    query satisfies the two specified example equalities: a trailing ", The"
    is stripped and "The " re-prepended, and format tags together with
    anniversary/restoration qualifiers are stripped with whitespace
    collapsed. -/
theorem spec_C9 : canonicalize "Housemaid, The" = "The Housemaid" ∧
    canonicalize "Jaws 3D - 50th Anniversary Restoration" = "Jaws" :=
  ⟨by decide, by decide⟩

/- ------------------------------------------------------------------ -/
/- The TMDB metadata lookup client                                     -/
/- ------------------------------------------------------------------ -/

/-- The enrichment record produced by fetchTMDB. Ratings are modelled as
    rationals; absent JSON fields and JS null are both Option.none. -/
structure Metadata where
  overview : Option String
  posterPath : Option String
  rating : Option ℚ
  year : Option String
  runtime : Option Nat
  trailerUrl : Option String
  tmdbId : Option Nat
deriving DecidableEq, Repr

/-- A movie object of the TMDB search response. -/
structure TMDBMovie where
  id : Nat
  title : String
  overview : Option String
  poster_path : Option String
  vote_average : Option ℚ
  release_date : Option String
deriving DecidableEq, Repr

/-- A videos entry of the TMDB details response; vtype embeds the JSON
    field named type. -/
structure TMDBVideo where
  site : String
  vtype : String
  key : String
deriving DecidableEq, Repr

/-- Outcome of one search request: a thrown error (network failure, bad
    JSON, ...) or a parsed result list (a missing results field behaves as
    the empty list). -/
inductive SearchOutcome where
  | err : SearchOutcome
  | ok : List TMDBMovie → SearchOutcome
deriving DecidableEq, Repr

/-- Outcome of one details request: runtime and video list on success. -/
inductive DetailOutcome where
  | err : DetailOutcome
  | ok : Option Nat → Option (List TMDBVideo) → DetailOutcome
deriving DecidableEq, Repr

/-- The external TMDB service, abstracted as deterministic responders for
    the two endpoints fetchTMDB uses. -/
structure Oracle where
  search : String → SearchOutcome
  details : Nat → DetailOutcome

/-- The module state touched by fetchTMDB: the tmdbCache Map (an association
    list in insertion order) and the log of search queries issued over the
    run. -/
structure FetchState where
  cache : List (String × Metadata)
  searchLog : List String
deriving DecidableEq, Repr

/-- title.toLowerCase().trim(): the tmdbCache key. -/
def lcTrim (s : String) : String := ⟨trimWs (s.data.map lowerCh)⟩

/-- Map.prototype.get on the association list. -/
def lookupCache (c : List (String × Metadata)) (k : String) : Option Metadata :=
  match c.find? (fun kv => kv.1 = k) with
  | some kv => some kv.2
  | none => none

/-- Map.prototype.set: overwrite in place when the key exists, else append. -/
def cacheSet (c : List (String × Metadata)) (k : String) (v : Metadata) :
    List (String × Metadata) :=
  if c.any (fun kv => kv.1 = k) then c.map (fun kv => if kv.1 = k then (k, v) else kv)
  else c ++ [(k, v)]

/-- JS x || null on an optional string: absent and empty both give null. -/
def jsStrOrNull : Option String → Option String
  | some s => if s = "" then none else some s
  | none => none

/-- JS x || null on an optional number: absent and zero both give null. -/
def jsNumOrNull : Option Nat → Option Nat
  | some n => if n = 0 then none else some n
  | none => none

/-- JS x || null on an optional rating: absent and zero both give null. -/
def jsRatOrNull : Option ℚ → Option ℚ
  | some q => if q = 0 then none else some q
  | none => none

/-- The trailer search over details.videos.results: the first entry on
    YouTube whose type is Trailer or Teaser. -/
def findTrailer : Option (List TMDBVideo) → Option String
  | none => none
  | some vs =>
    match vs.find? (fun v =>
        v.site = "YouTube" && (v.vtype = "Trailer" || v.vtype = "Teaser")) with
    | some v => some ⟨"https://www.youtube.com/watch?v=".data ++ v.key.data⟩
    | none => none

/-- The fallback object of fetchTMDB (identical for no-result and error). -/
def fallbackMeta : Metadata :=
  { overview := none, posterPath := none, rating := none, year := none,
    runtime := none, trailerUrl := none, tmdbId := none }

/-- The inner try/catch of fetchTMDB around the details request: an error
    degrades to null runtime and trailer, success yields
    details.runtime || null and the first matching trailer. -/
def detailRt : DetailOutcome → Option Nat × Option String
  | DetailOutcome.err => (none, none)
  | DetailOutcome.ok r vids => (jsNumOrNull r, findTrailer vids)

/-- movie.poster_path ? prefix + poster_path : null (the empty string is
    falsy). -/
def posterField : Option String → Option String
  | some p =>
    if p = "" then none
    else some ⟨"https://image.tmdb.org/t/p/w300".data ++ p.data⟩
  | none => none

/-- movie.release_date ? release_date.substring(0, 4) : null. -/
def yearField : Option String → Option String
  | some d => if d = "" then none else some ⟨d.data.take 4⟩
  | none => none

/-- The result object fetchTMDB builds from the first search hit. -/
def movieMeta (o : Oracle) (movie : TMDBMovie) : Metadata :=
  let rt := detailRt (o.details movie.id)
  { overview := jsStrOrNull movie.overview,
    posterPath := posterField movie.poster_path,
    rating := jsRatOrNull movie.vote_average,
    year := yearField movie.release_date,
    runtime := rt.1,
    trailerUrl := rt.2,
    tmdbId := some movie.id }

/-- The record fetchTMDB produces (and caches) for one search outcome: a
    thrown error and an empty result list both give the fallback, a
    non-empty list gives the record built from its first entry. -/
def resultOf (o : Oracle) : SearchOutcome → Metadata
  | SearchOutcome.err => fallbackMeta
  | SearchOutcome.ok [] => fallbackMeta
  | SearchOutcome.ok (movie :: _) => movieMeta o movie

/-- fetchTMDB from src/scraper.js, with the network supplied by the oracle
    and the module state passed explicitly. The source wraps everything in
    try/catch (and the details request in an inner try/catch), so the
    function is total; every miss issues one search request (logged), and
    caches whatever record results, under the lowercased-trimmed raw
    title. -/
def fetchTMDB (o : Oracle) (st : FetchState) (title : String) : Metadata × FetchState :=
  let cacheKey := lcTrim title
  match lookupCache st.cache cacheKey with
  | some r => (r, st)
  | none =>
    let cleanTitle := canonicalize title
    let result := resultOf o (o.search cleanTitle)
    (result,
      { cache := cacheSet st.cache cacheKey result,
        searchLog := st.searchLog ++ [cleanTitle] })

/-- A stub service: every search succeeds with no results, every details
    request fails. -/
def emptyOracle : Oracle :=
  { search := fun _ => SearchOutcome.ok [], details := fun _ => DetailOutcome.err }

def emptyState : FetchState := { cache := [], searchLog := [] }

/- ------------------------------------------------------------------ -/
/- Lemmas about the lookup client                                      -/
/- ------------------------------------------------------------------ -/

theorem find?_append_of_none {α : Type} (p : α → Bool) (a b : List α)
    (h : a.find? p = none) : (a ++ b).find? p = b.find? p := by
  induction a with
  | nil => simp
  | cons x xs ih =>
    by_cases hp : p x = true
    · rw [List.find?_cons_of_pos _ hp] at h
      exact absurd h (by simp)
    · rw [List.find?_cons_of_neg _ (by simpa using hp)] at h
      rw [List.cons_append, List.find?_cons_of_neg _ (by simpa using hp)]
      exact ih h

theorem lookupCache_set_fresh (c : List (String × Metadata)) (k : String) (v : Metadata)
    (h : lookupCache c k = none) : lookupCache (cacheSet c k v) k = some v := by
  have hfind : c.find? (fun kv => kv.1 = k) = none := by
    unfold lookupCache at h
    cases hf : c.find? (fun kv => kv.1 = k) with
    | none => rfl
    | some kv => rw [hf] at h; exact absurd h (by simp)
  have hany : c.any (fun kv => kv.1 = k) = false := by
    rw [List.any_eq_false]
    intro kv hkv
    have := List.find?_eq_none.mp hfind kv hkv
    simpa using this
  unfold cacheSet
  rw [if_neg (by simp [hany])]
  unfold lookupCache
  rw [find?_append_of_none _ _ _ hfind]
  simp

/-- A cache hit returns the cached record and leaves the state untouched:
    no request is issued. -/
theorem fetchTMDB_hit (o : Oracle) (st : FetchState) (t : String) (r : Metadata)
    (h : lookupCache st.cache (lcTrim t) = some r) :
    fetchTMDB o st t = (r, st) := by
  simp only [fetchTMDB]
  rw [h]

/-- A cache miss issues exactly one search request (on the canonicalised
    title) and caches the resulting record under the lowercased-trimmed raw
    title. -/
theorem fetchTMDB_miss (o : Oracle) (st : FetchState) (t : String)
    (h : lookupCache st.cache (lcTrim t) = none) :
    fetchTMDB o st t =
      (resultOf o (o.search (canonicalize t)),
        { cache := cacheSet st.cache (lcTrim t) (resultOf o (o.search (canonicalize t))),
          searchLog := st.searchLog ++ [canonicalize t] }) := by
  simp only [fetchTMDB]
  rw [h]

/-- After any call, the cache holds the returned record under the
    lowercased-trimmed raw title. -/
theorem fetchTMDB_cache_after (o : Oracle) (st : FetchState) (t : String) :
    lookupCache (fetchTMDB o st t).2.cache (lcTrim t) = some (fetchTMDB o st t).1 := by
  cases hlook : lookupCache st.cache (lcTrim t) with
  | some r =>
    rw [fetchTMDB_hit o st t r hlook]
    exact hlook
  | none =>
    rw [fetchTMDB_miss o st t hlook]
    exact lookupCache_set_fresh _ _ _ hlook

/-- The field sanity facts every record produced by fetchTMDB enjoys: the
    || null collapses mean no field can hold the JS-falsy values zero or
    the empty string. -/
def GoodMeta (m : Metadata) : Prop :=
  m.rating ≠ some 0 ∧ m.runtime ≠ some 0 ∧ m.overview ≠ some "" ∧
    m.posterPath ≠ some "" ∧ m.trailerUrl ≠ some "" ∧ m.year ≠ some ""

instance (m : Metadata) : Decidable (GoodMeta m) := by
  unfold GoodMeta
  infer_instance

/-- All cached records are well-formed; the initial empty cache trivially
    satisfies this, and fetchTMDB preserves it. -/
def GoodState (st : FetchState) : Prop := ∀ kv ∈ st.cache, GoodMeta kv.2

instance (st : FetchState) : Decidable (GoodState st) := by
  unfold GoodState
  infer_instance

theorem jsRatOrNull_good (x : Option ℚ) : jsRatOrNull x ≠ some 0 := by
  cases x with
  | none => simp [jsRatOrNull]
  | some q =>
    by_cases h : q = 0 <;> simp [jsRatOrNull, h]

theorem jsNumOrNull_good (x : Option Nat) : jsNumOrNull x ≠ some 0 := by
  cases x with
  | none => simp [jsNumOrNull]
  | some n =>
    by_cases h : n = 0 <;> simp [jsNumOrNull, h]

theorem jsStrOrNull_good (x : Option String) : jsStrOrNull x ≠ some "" := by
  cases x with
  | none => simp [jsStrOrNull]
  | some s =>
    by_cases h : s = "" <;> simp [jsStrOrNull, h]

theorem mk_append_ne_empty (a b : List Char) (h : a ≠ []) :
    (⟨a ++ b⟩ : String) ≠ "" := by
  intro hc
  have hd : a ++ b = ([] : List Char) := congrArg String.data hc
  exact h (List.append_eq_nil.mp hd).1

theorem opt_mk_append_ne (a b : List Char) (h : a ≠ []) :
    some (⟨a ++ b⟩ : String) ≠ some "" := by
  intro hc
  exact mk_append_ne_empty a b h (Option.some.inj hc)

theorem findTrailer_good (v : Option (List TMDBVideo)) : findTrailer v ≠ some "" := by
  cases v with
  | none => simp [findTrailer]
  | some vs =>
    simp only [findTrailer]
    cases hf : vs.find? (fun v =>
        v.site = "YouTube" && (v.vtype = "Trailer" || v.vtype = "Teaser")) with
    | none => simp
    | some v => exact opt_mk_append_ne _ _ (by decide)

theorem detailRt_runtime_good (d : DetailOutcome) : (detailRt d).1 ≠ some 0 := by
  cases d with
  | err => simp [detailRt]
  | ok r vids => exact jsNumOrNull_good r

theorem detailRt_trailer_good (d : DetailOutcome) : (detailRt d).2 ≠ some "" := by
  cases d with
  | err => simp [detailRt]
  | ok r vids => exact findTrailer_good vids

theorem posterField_good (p : Option String) : posterField p ≠ some "" := by
  cases p with
  | none => simp [posterField]
  | some p =>
    by_cases h : p = ""
    · simp [posterField, h]
    · simp only [posterField]
      rw [if_neg h]
      exact opt_mk_append_ne _ _ (by decide)

theorem yearField_good (d : Option String) : yearField d ≠ some "" := by
  cases d with
  | none => simp [yearField]
  | some d =>
    by_cases h : d = ""
    · simp [yearField, h]
    · simp only [yearField]
      rw [if_neg h]
      intro hc
      have hdata : d.data.take 4 = ([] : List Char) :=
        congrArg String.data (Option.some.inj hc)
      obtain ⟨l⟩ := d
      cases l with
      | nil => exact h rfl
      | cons c cs => simp [List.take] at hdata

theorem fallbackMeta_good : GoodMeta fallbackMeta := by decide

theorem movieMeta_good (o : Oracle) (movie : TMDBMovie) : GoodMeta (movieMeta o movie) :=
  ⟨jsRatOrNull_good _, detailRt_runtime_good _, jsStrOrNull_good _,
    posterField_good _, detailRt_trailer_good _, yearField_good _⟩

theorem resultOf_good (o : Oracle) (s : SearchOutcome) : GoodMeta (resultOf o s) := by
  cases s with
  | err => exact fallbackMeta_good
  | ok results =>
    cases results with
    | nil => exact fallbackMeta_good
    | cons movie rest => exact movieMeta_good o movie

theorem goodState_cacheSet (c : List (String × Metadata)) (k : String) (v : Metadata)
    (hc : ∀ kv ∈ c, GoodMeta kv.2) (hv : GoodMeta v) :
    ∀ kv ∈ cacheSet c k v, GoodMeta kv.2 := by
  intro kv hkv
  unfold cacheSet at hkv
  split at hkv
  · obtain ⟨kv0, hkv0, hmap⟩ := List.mem_map.mp hkv
    by_cases hk : kv0.1 = k
    · rw [if_pos hk] at hmap; rw [← hmap]; exact hv
    · rw [if_neg hk] at hmap; rw [← hmap]; exact hc kv0 hkv0
  · rcases List.mem_append.mp hkv with h1 | h2
    · exact hc kv h1
    · rcases List.mem_cons.mp h2 with rfl | h3
      · exact hv
      · exact absurd h3 (List.not_mem_nil _)

/-- fetchTMDB only ever returns well-formed records and preserves cache
    well-formedness. -/
theorem fetchTMDB_good (o : Oracle) (st : FetchState) (t : String) (h : GoodState st) :
    GoodMeta (fetchTMDB o st t).1 ∧ GoodState (fetchTMDB o st t).2 := by
  cases hlook : lookupCache st.cache (lcTrim t) with
  | some r =>
    rw [fetchTMDB_hit o st t r hlook]
    refine ⟨?_, h⟩
    unfold lookupCache at hlook
    cases hf : st.cache.find? (fun kv => kv.1 = lcTrim t) with
    | none => rw [hf] at hlook; exact absurd hlook (by simp)
    | some kv =>
      rw [hf] at hlook
      have hmem := List.mem_of_find?_eq_some hf
      have hgood := h kv hmem
      have hr : kv.2 = r := by simpa using hlook
      rw [← hr]
      exact hgood
  | none =>
    rw [fetchTMDB_miss o st t hlook]
    exact ⟨resultOf_good o _, goodState_cacheSet _ _ _ h (resultOf_good o _)⟩

/-- C1 (amended): fetchTMDB performs at most one external search request per
    unique lowercased-trimmed raw title per run: the cache is keyed by the
    lowercased-trimmed raw title, so for any two calls whose raw titles
    lowercase-trim to the same string, the second call is served from the
    cache, returns the first call's record and leaves the state (including
    the search-request log) unchanged. -/
theorem spec_C1 (o : Oracle) (st : FetchState) (t1 t2 : String)
    (h : lcTrim t1 = lcTrim t2) :
    lookupCache (fetchTMDB o st t1).2.cache (lcTrim t1) = some (fetchTMDB o st t1).1 ∧
      fetchTMDB o (fetchTMDB o st t1).2 t2 =
        ((fetchTMDB o st t1).1, (fetchTMDB o st t1).2) := by
  refine ⟨fetchTMDB_cache_after o st t1, ?_⟩
  have hh := fetchTMDB_cache_after o st t1
  rw [h] at hh
  exact fetchTMDB_hit o _ t2 _ hh

theorem spec_C1_witness :
    lookupCache (fetchTMDB emptyOracle emptyState "Jaws").2.cache (lcTrim "Jaws") =
      some (fetchTMDB emptyOracle emptyState "Jaws").1 ∧
      fetchTMDB emptyOracle (fetchTMDB emptyOracle emptyState "Jaws").2 " JAWS " =
        ((fetchTMDB emptyOracle emptyState "Jaws").1,
          (fetchTMDB emptyOracle emptyState "Jaws").2) :=
  spec_C1 emptyOracle emptyState "Jaws" " JAWS " (by decide)

/-- C1 counterexample: the cache key is the lowercased-trimmed RAW title,
    not the canonicalised one. "Jaws" and "Jaws 3D" canonicalise (and
    lowercase) to the same query string, yet the second call is a cache
    miss and issues a second external search request: after the two calls
    the search log holds two entries, where the claim requires one. -/
theorem spec_C1_cex :
    lcTrim (canonicalize "Jaws") = lcTrim (canonicalize "Jaws 3D") ∧
      (fetchTMDB emptyOracle
          (fetchTMDB emptyOracle emptyState "Jaws").2 "Jaws 3D").2.searchLog.length = 2 :=
  ⟨by decide, by decide⟩

/-- C3: on a cache miss where the external search yields an error or zero
    results, fetchTMDB returns the single all-null fallback object -- the
    same shape in both cases -- caches it under the lowercased-trimmed raw
    title, and (being a total function, as the source catches every
    failure) propagates no exception. -/
theorem spec_C3 (o : Oracle) (st : FetchState) (t : String)
    (hmiss : lookupCache st.cache (lcTrim t) = none)
    (h : o.search (canonicalize t) = SearchOutcome.err ∨
      o.search (canonicalize t) = SearchOutcome.ok []) :
    fetchTMDB o st t =
      ({ overview := none, posterPath := none, rating := none, year := none,
         runtime := none, trailerUrl := none, tmdbId := none },
        { cache := cacheSet st.cache (lcTrim t)
            { overview := none, posterPath := none, rating := none, year := none,
              runtime := none, trailerUrl := none, tmdbId := none },
          searchLog := st.searchLog ++ [canonicalize t] }) := by
  rw [fetchTMDB_miss o st t hmiss]
  rcases h with h | h <;> rw [h] <;> rfl

theorem spec_C3_witness :
    lookupCache emptyState.cache (lcTrim "Nonexistent Film") = none ∧
      (emptyOracle.search (canonicalize "Nonexistent Film") = SearchOutcome.err ∨
        emptyOracle.search (canonicalize "Nonexistent Film") = SearchOutcome.ok []) ∧
      fetchTMDB emptyOracle emptyState "Nonexistent Film" =
        ({ overview := none, posterPath := none, rating := none, year := none,
           runtime := none, trailerUrl := none, tmdbId := none },
          { cache := cacheSet emptyState.cache (lcTrim "Nonexistent Film")
              { overview := none, posterPath := none, rating := none, year := none,
                runtime := none, trailerUrl := none, tmdbId := none },
            searchLog := emptyState.searchLog ++ [canonicalize "Nonexistent Film"] }) :=
  ⟨by decide, Or.inr (by decide),
    spec_C3 emptyOracle emptyState "Nonexistent Film" (by decide) (Or.inr (by decide))⟩

/- ------------------------------------------------------------------ -/
/- Sessions and TMDB enrichment                                        -/
/- ------------------------------------------------------------------ -/

/-- A per-constituent film record pushed for a double feature:
    the spread of the title and the tmdb record. -/
structure Film where
  title : String
  meta : Metadata
deriving DecidableEq, Repr

/-- A session record as built by the extractors and enriched in place by
    enrichWithTMDB. Fields a JS object may simply lack are Option.none;
    isDoubleFeature is false when the flag is absent. -/
structure Session where
  title : String
  times : List String
  premiumTimes : Option (List String)
  url : String
  isDoubleFeature : Bool
  films : Option (List Film)
  overview : Option String
  posterPath : Option String
  rating : Option ℚ
  year : Option String
  runtime : Option Nat
  trailerUrl : Option String
deriving DecidableEq, Repr

/-- JS String.prototype.includes. -/
def includesStr (s pat : String) : Bool := containsSub pat.data s.data

/-- Case-sensitive prefix stripping (for the literal split separator). -/
def stripLit : List Char → List Char → Option (List Char)
  | [], l => some l
  | _ :: _, [] => none
  | p :: ps, c :: cs => if c = p then stripLit ps cs else none

/-- Leftmost occurrence of sep: the part before it and the part after it. -/
def findSep (sep : List Char) : List Char → Option (List Char × List Char)
  | [] =>
    match stripLit sep [] with
    | some r => some ([], r)
    | none => none
  | c :: cs =>
    match stripLit sep (c :: cs) with
    | some r => some ([], r)
    | none =>
      match findSep sep cs with
      | some (before, after) => some (c :: before, after)
      | none => none

/-- JS String.prototype.split on a literal separator: cut at every
    occurrence, scanning left to right (fuel-bounded for kernel
    reduction). -/
def splitSubGo (sep : List Char) : Nat → List Char → List (List Char)
  | 0, l => [l]
  | fuel + 1, l =>
    match findSep sep l with
    | some (before, after) => before :: splitSubGo sep fuel after
    | none => [l]

def jsSplit (s sep : String) : List String :=
  (splitSubGo sep.data (s.data.length + 1) s.data).map (fun l => ⟨l⟩)

/-- String.prototype.trim. -/
def trimStr (s : String) : String := ⟨trimWs s.data⟩

/-- JS truthiness of an optional string (null and the empty string are
    falsy). -/
def jsTruthyStr : Option String → Bool
  | some s => if s = "" then false else true
  | none => false

/-- JS truthiness of an optional number (null and zero are falsy). -/
def jsTruthyRat : Option ℚ → Bool
  | some q => if q = 0 then false else true
  | none => false

/-- JS a || b || null. -/
def jsOrStr (a b : Option String) : Option String :=
  if jsTruthyStr a then a else if jsTruthyStr b then b else none

/-- JS a || null. -/
def jsOrStr1 (a : Option String) : Option String :=
  if jsTruthyStr a then a else none

/-- JS a || b || null on ratings. -/
def jsOrRat (a b : Option ℚ) : Option ℚ :=
  if jsTruthyRat a then a else if jsTruthyRat b then b else none

/-- The body of the enrichment loop of enrichWithTMDB for one session:
    times (and premiumTimes when present) are standardised; a session
    flagged isDoubleFeature whose title carries a known separator is split
    (" + " preferred over " & "), each constituent fetched and pushed onto
    films, and the aggregate fields set; any other session is enriched from
    a single fetch of its full title. The runtime accumulation embeds
    "if (tmdb.runtime) totalRuntime += tmdb.runtime": adding zero when the
    value is absent (or zero) is the same sum. -/
def enrichSession (o : Oracle) (st : FetchState) (s : Session) : Session × FetchState :=
  let s0 := { s with times := s.times.map standardiseTime,
                     premiumTimes := s.premiumTimes.map (List.map standardiseTime) }
  if s0.isDoubleFeature = true ∧
      (includesStr s0.title " + " = true ∨ includesStr s0.title " & " = true) then
    let separator := if includesStr s0.title " + " then " + " else " & "
    let titles := jsSplit s0.title separator
    let step := fun (acc : List Film × Nat × FetchState) (t : String) =>
      let ft := fetchTMDB o acc.2.2 (trimStr t)
      (acc.1 ++ [{ title := trimStr t, meta := ft.1 }],
        acc.2.1 + ft.1.runtime.getD 0,
        ft.2)
    let res := titles.foldl step ([], 0, st)
    let films := res.1
    let totalRuntime := res.2.1
    let f0p := (films.get? 0).bind (fun f => f.meta.posterPath)
    let f0o := (films.get? 0).bind (fun f => f.meta.overview)
    let f0y := (films.get? 0).bind (fun f => f.meta.year)
    let f0r := (films.get? 0).bind (fun f => f.meta.rating)
    let f1r := (films.get? 1).bind (fun f => f.meta.rating)
    let f0t := (films.get? 0).bind (fun f => f.meta.trailerUrl)
    let f1t := (films.get? 1).bind (fun f => f.meta.trailerUrl)
    ({ s0 with
        films := some films,
        posterPath := if jsTruthyStr f0p then f0p else s0.posterPath,
        overview := if jsTruthyStr f0o then f0o else s0.overview,
        runtime := if 0 < totalRuntime then some totalRuntime else none,
        year := jsOrStr1 f0y,
        rating :=
          if jsTruthyRat f0r = true ∧ jsTruthyRat f1r = true then
            some ((f0r.getD 0 + f1r.getD 0) / 2)
          else jsOrRat f0r f1r,
        trailerUrl := jsOrStr f0t f1t },
      res.2.2)
  else
    let ft := fetchTMDB o st s0.title
    ({ s0 with overview := ft.1.overview, posterPath := ft.1.posterPath,
               rating := ft.1.rating, year := ft.1.year, runtime := ft.1.runtime,
               trailerUrl := ft.1.trailerUrl },
      ft.2)

/-- VenueResult: one venue's extraction output. -/
structure VenueResult where
  cinema : String
  url : String
  sessions : List Session
  note : Option String
deriving DecidableEq, Repr

/-- enrichWithTMDB from src/scraper.js: every session of the venue result
    enriched in order, threading the cache state. -/
def enrichWithTMDB (o : Oracle) (st : FetchState) (cd : VenueResult) :
    VenueResult × FetchState :=
  let res := cd.sessions.foldl
    (fun (acc : List Session × FetchState) s =>
      let es := enrichSession o acc.2 s
      (acc.1 ++ [es.1], es.2)) ([], st)
  ({ cd with sessions := res.1 }, res.2)

theorem enrichSession_double (o : Oracle) (st : FetchState) (s : Session) (a b : String)
    (m1 m2 : Metadata) (st1 st2 : FetchState)
    (hd : s.isDoubleFeature = true)
    (hp : includesStr s.title " + " = true)
    (hs : jsSplit s.title " + " = [a, b])
    (h1 : fetchTMDB o st (trimStr a) = (m1, st1))
    (h2 : fetchTMDB o st1 (trimStr b) = (m2, st2)) :
    enrichSession o st s =
      ({ s with
          times := s.times.map standardiseTime,
          premiumTimes := s.premiumTimes.map (List.map standardiseTime),
          films := some [{ title := trimStr a, meta := m1 },
                         { title := trimStr b, meta := m2 }],
          posterPath := if jsTruthyStr m1.posterPath then m1.posterPath else s.posterPath,
          overview := if jsTruthyStr m1.overview then m1.overview else s.overview,
          runtime :=
            if 0 < m1.runtime.getD 0 + m2.runtime.getD 0 then
              some (m1.runtime.getD 0 + m2.runtime.getD 0)
            else none,
          year := jsOrStr1 m1.year,
          rating :=
            if jsTruthyRat m1.rating = true ∧ jsTruthyRat m2.rating = true then
              some ((m1.rating.getD 0 + m2.rating.getD 0) / 2)
            else jsOrRat m1.rating m2.rating,
          trailerUrl := jsOrStr m1.trailerUrl m2.trailerUrl },
        st2) := by
  simp only [enrichSession]
  rw [if_pos ⟨hd, Or.inl hp⟩]
  rw [if_pos hp, hs]
  simp only [List.foldl_cons, List.foldl_nil, h1, h2, List.nil_append, List.cons_append,
    List.get?, Nat.zero_add, Option.bind]

/-- Combine two optional values: both present combines them, one present
    keeps it, none gives null (the aggregation shape of the double-feature
    resolver). -/
def aggPair {α : Type} (f : α → α → α) : Option α → Option α → Option α
  | some x, some y => some (f x y)
  | some x, none => some x
  | none, some y => some y
  | none, none => none

/-- First value when present, else the second, else null. -/
def firstOr {α : Type} : Option α → Option α → Option α
  | some x, _ => some x
  | none, some y => some y
  | none, none => none

/-- First value when present, else the fallback. -/
def firstOrElse {α : Type} : Option α → Option α → Option α
  | some x, _ => some x
  | none, fb => fb

theorem ratingAgg_eq (r1 r2 : Option ℚ) (h1 : r1 ≠ some 0) (h2 : r2 ≠ some 0) :
    (if jsTruthyRat r1 = true ∧ jsTruthyRat r2 = true then
        some ((r1.getD 0 + r2.getD 0) / 2)
      else jsOrRat r1 r2) = aggPair (fun x y => (x + y) / 2) r1 r2 := by
  cases r1 with
  | none =>
    cases r2 with
    | none => simp [jsTruthyRat, jsOrRat, aggPair]
    | some y =>
      have hy : ¬(y = 0) := fun h0 => h2 (by rw [h0])
      simp [jsTruthyRat, jsOrRat, aggPair, hy]
  | some x =>
    have hx : ¬(x = 0) := fun h0 => h1 (by rw [h0])
    cases r2 with
    | none => simp [jsTruthyRat, jsOrRat, aggPair, hx]
    | some y =>
      have hy : ¬(y = 0) := fun h0 => h2 (by rw [h0])
      simp [jsTruthyRat, jsOrRat, aggPair, hx, hy]

theorem runtimeAgg_eq (r1 r2 : Option Nat) (h1 : r1 ≠ some 0) (h2 : r2 ≠ some 0) :
    (if 0 < r1.getD 0 + r2.getD 0 then some (r1.getD 0 + r2.getD 0) else none) =
      aggPair (fun x y => x + y) r1 r2 := by
  cases r1 with
  | none =>
    cases r2 with
    | none => simp [aggPair]
    | some y =>
      have hy : ¬(y = 0) := fun h0 => h2 (by rw [h0])
      simp [aggPair, Nat.pos_of_ne_zero hy]
  | some x =>
    have hx : ¬(x = 0) := fun h0 => h1 (by rw [h0])
    cases r2 with
    | none => simp [aggPair, Nat.pos_of_ne_zero hx]
    | some y => simp [aggPair, Nat.pos_of_ne_zero hx, Nat.add_pos_left]

theorem orStr_eq (t1 t2 : Option String) (h1 : t1 ≠ some "") (h2 : t2 ≠ some "") :
    jsOrStr t1 t2 = firstOr t1 t2 := by
  cases t1 with
  | none =>
    cases t2 with
    | none => simp [jsOrStr, jsTruthyStr, firstOr]
    | some y =>
      have hy : ¬(y = "") := fun h0 => h2 (by rw [h0])
      simp [jsOrStr, jsTruthyStr, firstOr, hy]
  | some x =>
    have hx : ¬(x = "") := fun h0 => h1 (by rw [h0])
    simp [jsOrStr, jsTruthyStr, firstOr, hx]

theorem truthyElse_eq (t1 : Option String) (fb : Option String) (h1 : t1 ≠ some "") :
    (if jsTruthyStr t1 = true then t1 else fb) = firstOrElse t1 fb := by
  cases t1 with
  | none => simp [jsTruthyStr, firstOrElse]
  | some x =>
    have hx : ¬(x = "") := fun h0 => h1 (by rw [h0])
    simp [jsTruthyStr, firstOrElse, hx]

/-- C4: a session flagged isDoubleFeature whose title splits on " + " into
    two constituent titles is enriched with a films array of exactly the two
    per-constituent records (so films.length = 2), and its aggregate rating
    is the arithmetic mean of the two constituents' ratings when both are
    present, else whichever single rating is present, else null. The
    GoodState hypothesis says every cached record was produced by fetchTMDB
    (no JS-falsy zero ratings), which holds from the empty initial cache. -/
theorem spec_C4 (o : Oracle) (st : FetchState) (s : Session) (a b : String)
    (hg : GoodState st) (hd : s.isDoubleFeature = true)
    (hp : includesStr s.title " + " = true)
    (hs : jsSplit s.title " + " = [a, b]) :
    (enrichSession o st s).1.films =
      some [{ title := trimStr a, meta := (fetchTMDB o st (trimStr a)).1 },
            { title := trimStr b,
              meta := (fetchTMDB o (fetchTMDB o st (trimStr a)).2 (trimStr b)).1 }] ∧
      ((enrichSession o st s).1.films.map List.length = some 2) ∧
      (enrichSession o st s).1.rating =
        aggPair (fun x y => (x + y) / 2) (fetchTMDB o st (trimStr a)).1.rating
          (fetchTMDB o (fetchTMDB o st (trimStr a)).2 (trimStr b)).1.rating := by
  obtain ⟨hg1, hgs1⟩ := fetchTMDB_good o st (trimStr a) hg
  obtain ⟨hg2, -⟩ := fetchTMDB_good o (fetchTMDB o st (trimStr a)).2 (trimStr b) hgs1
  have hed := enrichSession_double o st s a b (fetchTMDB o st (trimStr a)).1
    (fetchTMDB o (fetchTMDB o st (trimStr a)).2 (trimStr b)).1
    (fetchTMDB o st (trimStr a)).2
    (fetchTMDB o (fetchTMDB o st (trimStr a)).2 (trimStr b)).2
    hd hp hs rfl rfl
  rw [hed]
  refine ⟨rfl, rfl, ?_⟩
  exact ratingAgg_eq _ _ hg1.1 hg2.1

/-- C5: for the same double-feature sessions, the aggregate runtime is the
    sum of the constituent runtimes that are present: one present runtime
    alone is kept as is, and null results only when both are absent. -/
theorem spec_C5 (o : Oracle) (st : FetchState) (s : Session) (a b : String)
    (hg : GoodState st) (hd : s.isDoubleFeature = true)
    (hp : includesStr s.title " + " = true)
    (hs : jsSplit s.title " + " = [a, b]) :
    (enrichSession o st s).1.runtime =
      aggPair (fun x y => x + y) (fetchTMDB o st (trimStr a)).1.runtime
        (fetchTMDB o (fetchTMDB o st (trimStr a)).2 (trimStr b)).1.runtime := by
  obtain ⟨hg1, hgs1⟩ := fetchTMDB_good o st (trimStr a) hg
  obtain ⟨hg2, -⟩ := fetchTMDB_good o (fetchTMDB o st (trimStr a)).2 (trimStr b) hgs1
  have hed := enrichSession_double o st s a b (fetchTMDB o st (trimStr a)).1
    (fetchTMDB o (fetchTMDB o st (trimStr a)).2 (trimStr b)).1
    (fetchTMDB o st (trimStr a)).2
    (fetchTMDB o (fetchTMDB o st (trimStr a)).2 (trimStr b)).2
    hd hp hs rfl rfl
  rw [hed]
  exact runtimeAgg_eq _ _ hg1.2.1 hg2.2.1

/-- C6 (amended): for the same double-feature sessions, the aggregate
    trailerUrl is the first constituent's non-null value falling back to the
    second's; but posterPath and overview are set only from the FIRST
    constituent -- when its value is null the session's prior field value is
    kept and the second constituent's value is never consulted. -/
theorem spec_C6 (o : Oracle) (st : FetchState) (s : Session) (a b : String)
    (hg : GoodState st) (hd : s.isDoubleFeature = true)
    (hp : includesStr s.title " + " = true)
    (hs : jsSplit s.title " + " = [a, b]) :
    (enrichSession o st s).1.trailerUrl =
      firstOr (fetchTMDB o st (trimStr a)).1.trailerUrl
        (fetchTMDB o (fetchTMDB o st (trimStr a)).2 (trimStr b)).1.trailerUrl ∧
      (enrichSession o st s).1.posterPath =
        firstOrElse (fetchTMDB o st (trimStr a)).1.posterPath s.posterPath ∧
      (enrichSession o st s).1.overview =
        firstOrElse (fetchTMDB o st (trimStr a)).1.overview s.overview := by
  obtain ⟨hg1, hgs1⟩ := fetchTMDB_good o st (trimStr a) hg
  obtain ⟨hg2, -⟩ := fetchTMDB_good o (fetchTMDB o st (trimStr a)).2 (trimStr b) hgs1
  have hed := enrichSession_double o st s a b (fetchTMDB o st (trimStr a)).1
    (fetchTMDB o (fetchTMDB o st (trimStr a)).2 (trimStr b)).1
    (fetchTMDB o st (trimStr a)).2
    (fetchTMDB o (fetchTMDB o st (trimStr a)).2 (trimStr b)).2
    hd hp hs rfl rfl
  rw [hed]
  refine ⟨orStr_eq _ _ hg1.2.2.2.2.1 hg2.2.2.2.2.1, ?_, ?_⟩
  · exact truthyElse_eq _ _ hg1.2.2.2.1
  · exact truthyElse_eq _ _ hg1.2.2.1

/-- C10: a session with isDoubleFeature true whose title contains neither
    " + " nor " & " is treated as a single feature: its state effect is
    exactly one fetchTMDB call on the full title, the enrichment fields are
    set from that single record, and no films array is added (films is
    unchanged). -/
theorem spec_C10 (o : Oracle) (st : FetchState) (s : Session)
    (hd : s.isDoubleFeature = true)
    (hp : includesStr s.title " + " = false)
    (ha : includesStr s.title " & " = false) :
    enrichSession o st s =
      ({ s with times := s.times.map standardiseTime,
                premiumTimes := s.premiumTimes.map (List.map standardiseTime),
                overview := (fetchTMDB o st s.title).1.overview,
                posterPath := (fetchTMDB o st s.title).1.posterPath,
                rating := (fetchTMDB o st s.title).1.rating,
                year := (fetchTMDB o st s.title).1.year,
                runtime := (fetchTMDB o st s.title).1.runtime,
                trailerUrl := (fetchTMDB o st s.title).1.trailerUrl },
        (fetchTMDB o st s.title).2) := by
  simp only [enrichSession]
  rw [if_neg (by
    intro hcon
    rcases hcon.2 with h | h
    · exact Bool.false_ne_true (hp.symm.trans h)
    · exact Bool.false_ne_true (ha.symm.trans h))]

/-- A stub double-feature session titled "Film A + Film B". -/
def dfSession : Session :=
  { title := "Film A + Film B", times := [], premiumTimes := none, url := "u",
    isDoubleFeature := true, films := none, overview := none, posterPath := none,
    rating := none, year := none, runtime := none, trailerUrl := none }

/-- A stub service with ratings 6.0 and 8.0 for the two constituents. -/
def ratingOracle : Oracle :=
  { search := fun q =>
      if q = "Film A" then
        SearchOutcome.ok [{ id := 1, title := "Film A", overview := none,
                            poster_path := none, vote_average := some 6,
                            release_date := none }]
      else if q = "Film B" then
        SearchOutcome.ok [{ id := 2, title := "Film B", overview := none,
                            poster_path := none, vote_average := some 8,
                            release_date := none }]
      else SearchOutcome.ok [],
    details := fun _ => DetailOutcome.err }

theorem spec_C4_witness :
    (enrichSession ratingOracle emptyState dfSession).1.films =
      some [{ title := trimStr "Film A",
              meta := (fetchTMDB ratingOracle emptyState (trimStr "Film A")).1 },
            { title := trimStr "Film B",
              meta := (fetchTMDB ratingOracle
                (fetchTMDB ratingOracle emptyState (trimStr "Film A")).2
                (trimStr "Film B")).1 }] ∧
      ((enrichSession ratingOracle emptyState dfSession).1.films.map List.length = some 2) ∧
      (enrichSession ratingOracle emptyState dfSession).1.rating =
        aggPair (fun x y => (x + y) / 2)
          (fetchTMDB ratingOracle emptyState (trimStr "Film A")).1.rating
          (fetchTMDB ratingOracle
            (fetchTMDB ratingOracle emptyState (trimStr "Film A")).2
            (trimStr "Film B")).1.rating :=
  spec_C4 ratingOracle emptyState dfSession "Film A" "Film B"
    (by decide) (by decide) (by decide) (by decide)

/-- A stub service where only the first constituent has a runtime (90). -/
def runtimeOracle : Oracle :=
  { search := fun q =>
      if q = "Film A" then
        SearchOutcome.ok [{ id := 1, title := "Film A", overview := none,
                            poster_path := none, vote_average := none,
                            release_date := none }]
      else if q = "Film B" then
        SearchOutcome.ok [{ id := 2, title := "Film B", overview := none,
                            poster_path := none, vote_average := none,
                            release_date := none }]
      else SearchOutcome.ok [],
    details := fun i => if i = 1 then DetailOutcome.ok (some 90) none
      else DetailOutcome.err }

theorem spec_C5_witness :
    (enrichSession runtimeOracle emptyState dfSession).1.runtime =
      aggPair (fun x y => x + y)
        (fetchTMDB runtimeOracle emptyState (trimStr "Film A")).1.runtime
        (fetchTMDB runtimeOracle
          (fetchTMDB runtimeOracle emptyState (trimStr "Film A")).2
          (trimStr "Film B")).1.runtime :=
  spec_C5 runtimeOracle emptyState dfSession "Film A" "Film B"
    (by decide) (by decide) (by decide) (by decide)

/-- A double feature "A + B" where the first constituent has no poster,
    no overview and no trailer, and the second has all three. -/
def cexSession : Session :=
  { title := "A + B", times := [], premiumTimes := none, url := "u",
    isDoubleFeature := true, films := none, overview := none, posterPath := none,
    rating := none, year := none, runtime := none, trailerUrl := none }

def cexOracle : Oracle :=
  { search := fun q =>
      if q = "A" then
        SearchOutcome.ok [{ id := 1, title := "A", overview := none,
                            poster_path := none, vote_average := none,
                            release_date := none }]
      else if q = "B" then
        SearchOutcome.ok [{ id := 2, title := "B", overview := some "Second film.",
                            poster_path := some "/p.jpg", vote_average := none,
                            release_date := none }]
      else SearchOutcome.ok [],
    details := fun i =>
      if i = 2 then
        DetailOutcome.ok none (some [{ site := "YouTube", vtype := "Trailer", key := "k2" }])
      else DetailOutcome.err }

theorem spec_C6_witness :
    (enrichSession cexOracle emptyState cexSession).1.trailerUrl =
      firstOr (fetchTMDB cexOracle emptyState (trimStr "A")).1.trailerUrl
        (fetchTMDB cexOracle (fetchTMDB cexOracle emptyState (trimStr "A")).2
          (trimStr "B")).1.trailerUrl ∧
      (enrichSession cexOracle emptyState cexSession).1.posterPath =
        firstOrElse (fetchTMDB cexOracle emptyState (trimStr "A")).1.posterPath
          cexSession.posterPath ∧
      (enrichSession cexOracle emptyState cexSession).1.overview =
        firstOrElse (fetchTMDB cexOracle emptyState (trimStr "A")).1.overview
          cexSession.overview :=
  spec_C6 cexOracle emptyState cexSession "A" "B"
    (by decide) (by decide) (by decide) (by decide)

/-- C6 counterexample: in the session "A + B" above, the first constituent
    has a null posterPath and overview while the second has both non-null
    (and the claim would therefore require the second's values); yet the
    enriched session keeps posterPath and overview null: the source never
    falls back to the second constituent for these two fields. -/
theorem spec_C6_cex :
    (fetchTMDB cexOracle (fetchTMDB cexOracle emptyState "A").2 "B").1.posterPath =
        some "https://image.tmdb.org/t/p/w300/p.jpg" ∧
      (fetchTMDB cexOracle (fetchTMDB cexOracle emptyState "A").2 "B").1.overview =
        some "Second film." ∧
      (enrichSession cexOracle emptyState cexSession).1.posterPath = none ∧
      (enrichSession cexOracle emptyState cexSession).1.overview = none :=
  ⟨by decide, by decide, by decide, by decide⟩

/-- A session flagged as a double feature whose title has no separator. -/
def soloSession : Session :=
  { title := "Solo", times := ["7:00pm"], premiumTimes := none, url := "u",
    isDoubleFeature := true, films := none, overview := none, posterPath := none,
    rating := none, year := none, runtime := none, trailerUrl := none }

theorem spec_C10_witness :
    enrichSession emptyOracle emptyState soloSession =
      ({ soloSession with
          times := soloSession.times.map standardiseTime,
          premiumTimes := soloSession.premiumTimes.map (List.map standardiseTime),
          overview := (fetchTMDB emptyOracle emptyState soloSession.title).1.overview,
          posterPath := (fetchTMDB emptyOracle emptyState soloSession.title).1.posterPath,
          rating := (fetchTMDB emptyOracle emptyState soloSession.title).1.rating,
          year := (fetchTMDB emptyOracle emptyState soloSession.title).1.year,
          runtime := (fetchTMDB emptyOracle emptyState soloSession.title).1.runtime,
          trailerUrl := (fetchTMDB emptyOracle emptyState soloSession.title).1.trailerUrl },
        (fetchTMDB emptyOracle emptyState soloSession.title).2) :=
  spec_C10 emptyOracle emptyState soloSession (by decide) (by decide) (by decide)

/- ------------------------------------------------------------------ -/
/- Extraction grouping (scrapeACMI and scrapeCinemaNova)               -/
/- ------------------------------------------------------------------ -/

/-- A raw session as grouped inside an extractor: title, collected times in
    discovery order, and the deep link taken from the first listing. -/
structure RawSession where
  title : String
  times : List String
  url : String
deriving DecidableEq, Repr

/-- The filmMap pattern shared by scrapeACMI and scrapeCinemaNova: a hit
    pushes the time onto the existing entry, a miss inserts a fresh entry at
    the end (JS Map preserves insertion order). -/
def upsertFilm (m : List RawSession) (title time url : String) : List RawSession :=
  if m.any (fun s => s.title = title) then
    m.map (fun s => if s.title = title then { s with times := s.times ++ [time] } else s)
  else m ++ [{ title := title, times := [time], url := url }]

/-- Fold a listing sequence (title, time, url) through the filmMap. -/
def groupSessions (pairs : List (String × String × String)) : List RawSession :=
  pairs.foldl (fun m p => upsertFilm m p.1 p.2.1 p.2.2) []

/-- Map.prototype.get-style lookup of the session carrying a title. -/
def findTitle (m : List RawSession) (t : String) : Option RawSession :=
  m.find? (fun s => s.title = t)

theorem foldl_entry_eq {α β γ : Type} (f : α → Option β) (g : γ → β → γ)
    (l : List α) (m : γ) :
    l.foldl (fun acc it => (f it).elim acc (fun p => g acc p)) m =
      (l.filterMap f).foldl g m := by
  induction l generalizing m with
  | nil => rfl
  | cons x xs ih =>
    cases hf : f x with
    | none => simp [List.foldl_cons, List.filterMap_cons, hf, ih]
    | some p => simp [List.foldl_cons, List.filterMap_cons, hf, ih]

theorem upsertFilm_titles (m : List RawSession) (title time url : String) :
    (upsertFilm m title time url).map RawSession.title =
      if m.any (fun s => s.title = title) = true then m.map RawSession.title
      else m.map RawSession.title ++ [title] := by
  unfold upsertFilm
  by_cases h : m.any (fun s => s.title = title) = true
  · rw [if_pos h, if_pos h, List.map_map]
    apply List.map_congr_left
    intro s _
    by_cases ht : s.title = title
    · simp [ht]
    · simp [ht]
  · rw [if_neg h, if_neg h]
    simp

theorem upsertFilm_nodup (m : List RawSession) (title time url : String)
    (h : (m.map RawSession.title).Nodup) :
    ((upsertFilm m title time url).map RawSession.title).Nodup := by
  rw [upsertFilm_titles]
  split
  · exact h
  next hany =>
    have hnot : title ∉ m.map RawSession.title := by
      intro hmem
      obtain ⟨s, hsm, hst⟩ := List.mem_map.mp hmem
      exact hany (List.any_eq_true.mpr ⟨s, hsm, by simp [hst]⟩)
    simp [List.nodup_append, h, hnot]

theorem find?_map_update (m : List RawSession) (title time t : String) (h : ¬(t = title)) :
    (m.map (fun s =>
        if s.title = title then { s with times := s.times ++ [time] } else s)).find?
        (fun s => s.title = t) =
      m.find? (fun s => s.title = t) := by
  induction m with
  | nil => rfl
  | cons s ms ih =>
    simp only [List.map_cons]
    by_cases hs : s.title = title
    · rw [if_pos hs]
      have hst : ¬(s.title = t) := fun he => h ((he.symm.trans hs))
      rw [List.find?_cons_of_neg _ (by simpa using hst),
        List.find?_cons_of_neg _ (by simpa using hst)]
      exact ih
    · rw [if_neg hs]
      by_cases hst : s.title = t
      · rw [List.find?_cons_of_pos _ (by simpa using hst),
          List.find?_cons_of_pos _ (by simpa using hst)]
      · rw [List.find?_cons_of_neg _ (by simpa using hst),
          List.find?_cons_of_neg _ (by simpa using hst)]
        exact ih

theorem find?_map_update_eq (m : List RawSession) (title time : String) :
    (m.map (fun s =>
        if s.title = title then { s with times := s.times ++ [time] } else s)).find?
        (fun s => s.title = title) =
      (m.find? (fun s => s.title = title)).map
        (fun s => { s with times := s.times ++ [time] }) := by
  induction m with
  | nil => rfl
  | cons s ms ih =>
    simp only [List.map_cons]
    by_cases hs : s.title = title
    · rw [if_pos hs]
      rw [List.find?_cons_of_pos _ (by simpa using hs),
        List.find?_cons_of_pos _ (by simpa using hs)]
      rfl
    · rw [if_neg hs]
      rw [List.find?_cons_of_neg _ (by simpa using hs),
        List.find?_cons_of_neg _ (by simpa using hs)]
      exact ih

theorem find?_append_single {α : Type} (m : List α) (x : α) (p : α → Bool)
    (hx : p x = false) : (m ++ [x]).find? p = m.find? p := by
  induction m with
  | nil => simp [List.find?, hx]
  | cons s ms ih =>
    by_cases hs : p s = true
    · rw [List.cons_append, List.find?_cons_of_pos _ hs, List.find?_cons_of_pos _ hs]
    · rw [List.cons_append, List.find?_cons_of_neg _ (by simpa using hs),
        List.find?_cons_of_neg _ (by simpa using hs)]
      exact ih

theorem findTitle_upsert_ne (m : List RawSession) (title time url t : String)
    (h : ¬(t = title)) :
    findTitle (upsertFilm m title time url) t = findTitle m t := by
  unfold findTitle upsertFilm
  by_cases hany : m.any (fun s => s.title = title) = true
  · rw [if_pos hany]
    exact find?_map_update m title time t h
  · rw [if_neg hany]
    exact find?_append_single m _ _ (by simp; exact fun he => h he.symm)

theorem findTitle_upsert_hit (m : List RawSession) (title time url : String)
    (s : RawSession) (h : findTitle m title = some s) :
    findTitle (upsertFilm m title time url) title =
      some { s with times := s.times ++ [time] } := by
  have hany : m.any (fun s => s.title = title) = true := by
    have hmem := List.mem_of_find?_eq_some h
    have hpred := List.find?_some h
    exact List.any_eq_true.mpr ⟨s, hmem, hpred⟩
  unfold findTitle upsertFilm
  rw [if_pos hany, find?_map_update_eq]
  unfold findTitle at h
  rw [h]
  rfl

theorem findTitle_upsert_miss (m : List RawSession) (title time url : String)
    (h : findTitle m title = none) :
    findTitle (upsertFilm m title time url) title =
      some { title := title, times := [time], url := url } := by
  have hfind : m.find? (fun s => s.title = title) = none := h
  have hany : m.any (fun s => s.title = title) = false := by
    rw [List.any_eq_false]
    intro s hs
    have := List.find?_eq_none.mp hfind s hs
    simpa using this
  unfold findTitle upsertFilm
  rw [if_neg (by simp [hany])]
  rw [find?_append_of_none _ _ _ hfind]
  rw [List.find?_cons_of_pos _ (by simp)]

theorem groupSessions_nodup (pairs : List (String × String × String)) :
    ((groupSessions pairs).map RawSession.title).Nodup := by
  induction pairs using List.reverseRecOn with
  | nil => simp [groupSessions]
  | append_singleton ps p ih =>
    show ((List.foldl (fun m q => upsertFilm m q.1 q.2.1 q.2.2) [] (ps ++ [p])).map
      RawSession.title).Nodup
    rw [List.foldl_append, List.foldl_cons, List.foldl_nil]
    exact upsertFilm_nodup _ _ _ _ ih

theorem groupSessions_find (pairs : List (String × String × String)) (t : String) :
    findTitle (groupSessions pairs) t =
      ((pairs.filter (fun p => p.1 = t)).head?).map
        (fun q => { title := t,
                    times := (pairs.filter (fun p => p.1 = t)).map (fun p => p.2.1),
                    url := q.2.2 }) := by
  induction pairs using List.reverseRecOn with
  | nil => rfl
  | append_singleton ps p ih =>
    have hgroup : groupSessions (ps ++ [p]) =
        upsertFilm (groupSessions ps) p.1 p.2.1 p.2.2 := by
      show List.foldl (fun m q => upsertFilm m q.1 q.2.1 q.2.2) [] (ps ++ [p]) = _
      rw [List.foldl_append, List.foldl_cons, List.foldl_nil]
      rfl
    rw [hgroup, List.filter_append]
    by_cases hpt : p.1 = t
    · have hfp : List.filter (fun p => p.1 = t) [p] = [p] := by simp [hpt]
      rw [hfp]
      subst hpt
      cases hh : (ps.filter (fun q => q.1 = p.1)).head? with
      | none =>
        have hfe : ps.filter (fun q => q.1 = p.1) = [] := by
          cases hf : ps.filter (fun q => q.1 = p.1) with
          | nil => rfl
          | cons a as => rw [hf] at hh; simp at hh
        have hnone : findTitle (groupSessions ps) p.1 = none := by
          rw [ih, hh]
          rfl
        rw [findTitle_upsert_miss _ _ _ _ hnone, hfe]
        simp
      | some q =>
        have hsome : findTitle (groupSessions ps) p.1 =
            some { title := p.1,
                   times := (ps.filter (fun r => r.1 = p.1)).map (fun r => r.2.1),
                   url := q.2.2 } := by
          rw [ih, hh]
          rfl
        rw [findTitle_upsert_hit _ _ _ _ _ hsome]
        have : (ps.filter (fun r => r.1 = p.1) ++ [p]).head? = some q := by
          cases hf : ps.filter (fun r => r.1 = p.1) with
          | nil => rw [hf] at hh; simp at hh
          | cons a as => rw [hf] at hh; simp at hh ⊢; exact hh
        rw [this]
        simp
    · have hfp : List.filter (fun q => q.1 = t) [p] = [] := by simp [hpt]
      rw [hfp, List.append_nil]
      rw [findTitle_upsert_ne _ _ _ _ _ (fun he => hpt he.symm)]
      exact ih

theorem find_of_mem_nodup (m : List RawSession) (s : RawSession)
    (hnd : (m.map RawSession.title).Nodup) (hm : s ∈ m) :
    findTitle m s.title = some s := by
  induction m with
  | nil => exact absurd hm (List.not_mem_nil _)
  | cons x xs ih =>
    rcases List.mem_cons.mp hm with rfl | hmem
    · unfold findTitle
      rw [List.find?_cons_of_pos _ (by simp)]
    · have hnd2 : (∀ y ∈ xs, ¬(y.title = x.title)) ∧
          (xs.map RawSession.title).Nodup := by simpa using hnd
      have hx : ¬(x.title = s.title) := fun he => hnd2.1 s hmem he.symm
      unfold findTitle
      rw [List.find?_cons_of_neg _ (by simpa using hx)]
      exact ih hnd2.2 hmem

/-- One item of the ACMI calendar API response, with the optional-chained
    fields resolved: eventType embeds item.event_type?.name ||
    item.event?.event_type?.name || item.type || <empty>; title embeds
    item.event?.title || item.title (none when absent); eventUrl embeds
    item.event?.url. -/
structure AcmiItem where
  eventType : String
  startDatetime : Option String
  title : Option String
  eventUrl : Option String
deriving DecidableEq, Repr

/-- item.start_datetime.split(<T>)[0]. -/
def datePart (s : String) : String := ⟨s.data.takeWhile (fun c => !(c = 'T'))⟩

/-- The date guard of the scrapeACMI loop: items without start_datetime
    pass, others must carry the target date. -/
def acmiDateOk (targetDate : String) : Option String → Bool
  | some s => if datePart s = targetDate then true else false
  | none => true

/-- The time regex /T(\d\x7b2\x7d):(\d\x7b2\x7d)/ scanned over start_datetime. -/
def acmiTimeScan : List Char → Option (Nat × Nat)
  | [] => none
  | c :: cs =>
    if c = 'T' then
      match cs with
      | a :: b :: k :: d :: e :: _ =>
        if isDigitC a && isDigitC b && k = ':' && isDigitC d && isDigitC e then
          some (digitsVal [a, b], digitsVal [d, e])
        else acmiTimeScan cs
      | _ => acmiTimeScan cs
    else acmiTimeScan cs

/-- The session time built by scrapeACMI: hours % 12 || 12, the minutes
    rendered only when positive, "See website" when nothing parses. -/
def acmiTime (sdt : Option String) : String :=
  match sdt with
  | none => "See website"
  | some s =>
    match acmiTimeScan s.data with
    | none => "See website"
    | some (hh, mm) =>
      let ampm : List Char := if 12 ≤ hh then pmC else amC
      let hour12 := if hh % 12 = 0 then 12 else hh % 12
      if 0 < mm then ⟨natDigits hour12 ++ ':' :: pad2C mm ++ ampm⟩
      else ⟨natDigits hour12 ++ ampm⟩

/-- The film URL of scrapeACMI: the event deep link when truthy, else the
    venue page for the target date. -/
def acmiUrl (websiteUrl : String) (eventUrl : Option String) : String :=
  match eventUrl with
  | some u => if u = "" then websiteUrl else ⟨"https://www.acmi.net.au".data ++ u.data⟩
  | none => websiteUrl

/-- The per-item filter and field extraction of the scrapeACMI loop: skip
    non-films (unknown or empty types are kept), skip items dated other
    than the target, skip untitled items; otherwise produce the
    (title, time, url) listing fed to the filmMap. -/
def acmiEntry (targetDate websiteUrl : String) (it : AcmiItem) :
    Option (String × String × String) :=
  if ¬(it.eventType = "" ∨ it.eventType = "Film") then none
  else if acmiDateOk targetDate it.startDatetime = false then none
  else
    match jsStrOrNull it.title with
    | none => none
    | some t => some (t, acmiTime it.startDatetime, acmiUrl websiteUrl it.eventUrl)

/-- The listings of one scrapeACMI run, in document order. -/
def acmiPairs (targetDate websiteUrl : String) (items : List AcmiItem) :
    List (String × String × String) :=
  items.filterMap (acmiEntry targetDate websiteUrl)

/-- The sessions list scrapeACMI builds for one venue/date (the filmMap
    loop followed by the forEach push, which yields insertion order). -/
def acmiSessions (targetDate websiteUrl : String) (items : List AcmiItem) :
    List RawSession :=
  items.foldl (fun m it =>
    (acmiEntry targetDate websiteUrl it).elim m
      (fun p => upsertFilm m p.1 p.2.1 p.2.2)) []

/-- One table row of the Cinema Nova session table: the extracted cell
    texts in order (cells[0] resolved as timeLink?.textContent?.trim() ||
    timeCell.textContent?.trim(), cells[1] the title cell text). -/
structure NovaRow where
  cells : List String
deriving DecidableEq, Repr

/-- The class [a-z0-9] of the slug replace (after toLowerCase). -/
def isSlugC (c : Char) : Bool :=
  (97 ≤ c.toNat && c.toNat ≤ 122) || isDigitC c

/-- .replace(/[^a-z0-9]+/g, <dash>): every maximal run of other characters
    becomes one hyphen. -/
def dashRunsGo : Nat → List Char → List Char
  | 0, l => l
  | _ + 1, [] => []
  | fuel + 1, c :: cs =>
    if isSlugC c then c :: dashRunsGo fuel cs
    else '-' :: dashRunsGo fuel (cs.dropWhile (fun x => !isSlugC x))

/-- The slug of the Cinema Nova film URL:
    title.toLowerCase().replace(/[^a-z0-9]+/g, <dash>).replace(/^-|-$/g, <empty>)
    (the second replace removes one leading and one trailing hyphen). -/
def novaSlug (title : String) : List Char :=
  let low := title.data.map lowerCh
  let dashed := dashRunsGo low.length low
  let d1 := match dashed with
    | '-' :: rest => rest
    | l => l
  match d1.reverse with
  | '-' :: rest => rest.reverse
  | _ => d1

def novaUrl (title : String) : String :=
  ⟨"https://www.cinemanova.com.au/films/".data ++ novaSlug title⟩

/-- The row filter of the Cinema Nova page evaluation: at least two cells,
    truthy time and title, and the time matching /^\d\x7b1,2\x7d:\d\x7b2\x7d$/. -/
def novaEntry (row : NovaRow) : Option (String × String × String) :=
  match row.cells with
  | time :: title :: _ =>
    if ¬(time = "") ∧ ¬(title = "") ∧ (parse24 time.data).isSome = true then
      some (title, time, novaUrl title)
    else none
  | _ => none

def novaPairs (rows : List NovaRow) : List (String × String × String) :=
  rows.filterMap novaEntry

/-- The items list scrapeCinemaNova builds (its filmMap loop and push). -/
def novaSessions (rows : List NovaRow) : List RawSession :=
  rows.foldl (fun m row =>
    (novaEntry row).elim m (fun p => upsertFilm m p.1 p.2.1 p.2.2)) []

theorem acmiSessions_eq (targetDate websiteUrl : String) (items : List AcmiItem) :
    acmiSessions targetDate websiteUrl items =
      groupSessions (acmiPairs targetDate websiteUrl items) := by
  unfold acmiSessions groupSessions acmiPairs
  exact foldl_entry_eq (acmiEntry targetDate websiteUrl)
    (fun m p => upsertFilm m p.1 p.2.1 p.2.2) items []

theorem novaSessions_eq (rows : List NovaRow) :
    novaSessions rows = groupSessions (novaPairs rows) := by
  unfold novaSessions groupSessions novaPairs
  exact foldl_entry_eq novaEntry
    (fun m p => upsertFilm m p.1 p.2.1 p.2.2) rows []

/-- C2: within one venue/date extraction (the two grouping extractors of
    the source, scrapeACMI and scrapeCinemaNova), every title occurs in at
    most one session of the result, and each returned session's times list
    is the concatenation, in first-seen discovery order, of the times of
    all raw listings bearing its title. -/
theorem spec_C2 (targetDate websiteUrl : String) (items : List AcmiItem)
    (rows : List NovaRow) :
    (((acmiSessions targetDate websiteUrl items).map RawSession.title).Nodup ∧
      ∀ s ∈ acmiSessions targetDate websiteUrl items,
        s.times = ((acmiPairs targetDate websiteUrl items).filter
          (fun p => p.1 = s.title)).map (fun p => p.2.1)) ∧
    ((novaSessions rows).map RawSession.title).Nodup ∧
      ∀ s ∈ novaSessions rows,
        s.times = ((novaPairs rows).filter (fun p => p.1 = s.title)).map
          (fun p => p.2.1) := by
  have key : ∀ pairs : List (String × String × String),
      ∀ s ∈ groupSessions pairs,
        s.times = (pairs.filter (fun p => p.1 = s.title)).map (fun p => p.2.1) := by
    intro pairs s hs
    have hfind := find_of_mem_nodup _ s (groupSessions_nodup pairs) hs
    rw [groupSessions_find] at hfind
    cases hh : (pairs.filter (fun p => p.1 = s.title)).head? with
    | none => rw [hh] at hfind; exact Option.noConfusion hfind
    | some q =>
      rw [hh] at hfind
      injection hfind with hfind2
      have := congrArg RawSession.times hfind2
      simpa using this.symm
  constructor
  · constructor
    · rw [acmiSessions_eq]
      exact groupSessions_nodup _
    · intro s hs
      rw [acmiSessions_eq] at hs
      exact key _ s hs
  · constructor
    · rw [novaSessions_eq]
      exact groupSessions_nodup _
    · intro s hs
      rw [novaSessions_eq] at hs
      exact key _ s hs

/-- Two raw ACMI film items sharing a title with different times, plus a
    third under another title. -/
def acmiItemsW : List AcmiItem :=
  [{ eventType := "Film", startDatetime := some "2026-01-01T16:00:00+11:00",
     title := some "Alpha", eventUrl := some "/whats-on/alpha/" },
   { eventType := "Film", startDatetime := some "2026-01-01T18:30:00+11:00",
     title := some "Alpha", eventUrl := some "/whats-on/alpha/" },
   { eventType := "Film", startDatetime := some "2026-01-01T20:15:00+11:00",
     title := some "Beta", eventUrl := none }]

/-- The single merged session expected for the title "Alpha". -/
def alphaSession : RawSession :=
  { title := "Alpha", times := ["4pm", "6:30pm"],
    url := "https://www.acmi.net.au/whats-on/alpha/" }

theorem spec_C2_witness :
    ((acmiSessions "2026-01-01" "w" acmiItemsW).map RawSession.title).Nodup ∧
      alphaSession ∈ acmiSessions "2026-01-01" "w" acmiItemsW ∧
      alphaSession.times = ((acmiPairs "2026-01-01" "w" acmiItemsW).filter
        (fun p => p.1 = alphaSession.title)).map (fun p => p.2.1) :=
  ⟨(spec_C2 "2026-01-01" "w" acmiItemsW []).1.1, by decide,
    (spec_C2 "2026-01-01" "w" acmiItemsW []).1.2 alphaSession (by decide)⟩
